import Mathlib

/-!
# tcpflow control program

A shallow embedding of `src/tcpflow.cpp`: the string utility `replace`, the
signal handler `terminate`, `process_infile` and `main` (option loop, option
post-processing, the `-r`/`-R` passes and the final shutdown sequence),
followed by the properties proved about them.

Conventions of the embedding.

* A `std::string` or C string is a list of characters (`Str`); strings that
  come from `argv` contain no NUL.
* The index of the loop in `replace` is an `unsigned int`: its arithmetic is
  taken modulo `2 ^ 32`, and the loop is run on fuel.
* `getopt` is libc: `main` is run on the sequence of `(arg, optarg)` pairs that
  `getopt` returns, followed by the remaining non-option arguments
  (`argv + optind`).
* Everything the program prints or asks of a collaborator (pcap, the demux
  object, the scanner registry, the DFXML report) is recorded, in program
  order, as an `Action`; a run ends in a `Halt` carrying the actions and the
  way the process ended.  `DEBUG(...)` tracing is not recorded.
* The cases `b`, `d`, `f`, `m`, `v`, `J`, `Z` of the option switch only store
  numeric or display settings that no branch of `main` tests afterwards, and
  `-S name=value` only fills `be_config`; these stores are not tracked.
* Declarations that live in other files of the repository (the initial
  `tcpdemux` options, the initial `flow::filename_template`, `split`, the
  sizes of the packet header structs, the configure-time macros) and the
  answers of the operating system and of libpcap are fields of `Env`.
* A signal is taken to arrive while `pcap_loop` is running, which is where the
  program spends its time once the handlers are installed.
-/

namespace Tcpflow

abbrev Str := List Char

/-! ## `replace` (tcpflow.cpp 170-188) -/

/-- The `for` loop of `replace`.  `i` is the `unsigned int` index (arithmetic
modulo `2 ^ 32`), `ss` the contents of the string stream, `changed` the flag.
One unit of fuel is one evaluation of the loop condition; `none` is "out of
fuel". -/
def replace_loop (str from_ to_ : Str) : Nat → Nat → Str → Bool → Option (Str × Bool)
  | 0, _, _, _ => none
  | fuel + 1, i, ss, changed =>
    if h : i < str.length then
      if (str.drop i).take from_.length = from_ then
        replace_loop str from_ to_ fuel ((i + from_.length) % 2 ^ 32) (ss ++ to_) true
      else
        replace_loop str from_ to_ fuel ((i + 1) % 2 ^ 32) (ss ++ [str[i]]) changed
    else some (ss, changed)

/-- The function `replace`, run with `fuel` loop iterations available; the
result is the new value of `str`. -/
def replace_fuel (fuel : Nat) (str from_ to_ : Str) : Option Str :=
  if from_.length = 0 then some str
  else
    match replace_loop str from_ to_ fuel 0 [] false with
    | none => none
    | some (ss, changed) => some (if changed then ss else str)

/-- The function `replace` with one loop iteration per character of `str` plus the
final test: enough whenever the index does not wrap (see
`replace_loop_none_of_large` for the other case). -/
def replace (str from_ to_ : Str) : Option Str :=
  replace_fuel (str.length + 1) str from_ to_

/-! ## Specification side of `replace` -/

/-- An occurrence of `from_` starts at offset `j` of `s`
(`s.substr(j, from_.size()) == from_`). -/
def occurs_at (from_ s : Str) (j : Nat) : Prop :=
  (s.drop j).take from_.length = from_

instance occurs_at_decidable (from_ s : Str) (j : Nat) : Decidable (occurs_at from_ s j) := by
  unfold occurs_at; infer_instance

/-- The list `[p0, ..., pk]` is a greedy leftmost decomposition with respect to
`from_`: in every piece that is followed by an occurrence of `from_`, no
occurrence of `from_` starts before that one, and the last piece contains no
occurrence of `from_` at all. -/
def greedy_pieces (from_ : Str) : List Str → Prop
  | [] => False
  | [p] => ∀ j, j < p.length → ¬ occurs_at from_ p j
  | p :: q :: ps =>
    (∀ j, j < p.length → ¬ occurs_at from_ (p ++ from_) j) ∧ greedy_pieces from_ (q :: ps)

instance greedy_pieces_decidable (from_ : Str) : ∀ ps, Decidable (greedy_pieces from_ ps)
  | [] => isFalse (by simp [greedy_pieces])
  | [p] => by unfold greedy_pieces; infer_instance
  | p :: q :: ps =>
    have := greedy_pieces_decidable from_ (q :: ps)
    by unfold greedy_pieces; infer_instance

/-- The scan of `replace` read off the unread suffix of `str` instead of the index. -/
def scan (from_ to_ : Str) : Nat → Str → Str → Bool → Option (Str × Bool)
  | 0, _, _, _ => none
  | _ + 1, [], ss, ch => some (ss, ch)
  | fuel + 1, c :: s, ss, ch =>
    if (c :: s).take from_.length = from_ then
      scan from_ to_ fuel ((c :: s).drop from_.length) (ss ++ to_) true
    else scan from_ to_ fuel s (ss ++ [c]) ch

/-! ## Observable actions and process endings -/

inductive Signal where
  | SIGTERM
  | SIGINT
  | SIGHUP
  deriving DecidableEq

/-- How the process ends. -/
inductive Exit where
  /-- The call `exit(n)`. -/
  | code (n : Nat)
  /-- The call `die(...)` (declared in tcpflow.h). -/
  | die
  /-- A signal whose disposition was never set to `terminate`. -/
  | killed (sig : Signal)
  /-- The loop of `replace` never ends. -/
  | no_return
  deriving DecidableEq

/-- Diagnostics written to `stderr`. -/
inductive Diag where
  | compile_error
  | deprecated_AH
  | invalid_format (c : Char)
  | invalid_parameter (optarg : Str)
  | post_processing_requires_output
  | no_pthreads
  | outdir_not_directory (outdir : Str)
  | cannot_create (outdir : Str)
  | w_requires_r
  | decompression_failed (infile : Str)
  | decompression_not_available (infile : Str)
  deriving DecidableEq

inductive Action where
  /-- Text printed by `usage()` for the given value of `usage_count` (1 or 2). -/
  | usage_page (n : Nat)
  | print_version
  | info_scanners (detailed : Bool)
  | diag (d : Diag)
  | scanners_enable_all
  | scanners_enable (name : Str)
  | scanners_disable (name : Str)
  | load_scanners
  | scanners_process_commands
  | sem_open (lockname : Str)
  | mkdir (outdir : Str)
  /-- The statements `xreport = new xml(reportfilename,false); dfxml_create(...)`. -/
  | report_create (reportfilename : Str)
  | save_unk_packets (wfile input_fname : Str)
  | feature_recorder_set (input_fname : Str)
  | setuid
  /-- Entry into `process_infile`, with the value of
  `demux.start_new_connections` in force. -/
  | process_infile (expression device infile : Str) (start_new_connections : Bool)
  | pcap_open_offline (file_path : Str)
  | pcap_open_live (device : Str) (promisc : Bool)
  | pcap_setfilter (expression : Str)
  /-- The call `portable_signal(sig, terminate)`. -/
  | portable_signal (sig : Signal)
  | pcap_loop
  | close_all_fd
  | phase_shutdown
  | remove_all_flows
  | report_add_rusage
  | report_pop
  | report_close
  | report_delete
  | warn_directory_entries (filecount : Nat)
  deriving DecidableEq

/-- A finished run: what was done, and how the process ended. -/
structure Halt where
  out : List Action
  exit : Exit
  deriving DecidableEq

/-- Either control continues with a state, or the process has ended. -/
inductive Res (α : Type) where
  | ok (s : α)
  | halt (h : Halt)
  deriving DecidableEq

def Res.bind {α β : Type} (r : Res α) (f : α → Res β) : Res β :=
  match r with
  | .ok s => f s
  | .halt h => .halt h

/-! ## Program state -/

/-- The fields of the `tcpdemux` singleton that `main` reads or writes. -/
structure Demux where
  post_processing : Bool
  opt_md5 : Bool
  store_output : Bool
  output_strip_nonprint : Bool
  console_output : Bool
  suppress_header : Bool
  output_hex : Bool
  outdir : Str
  start_new_connections : Bool
  deriving DecidableEq

/-- What happens inside one call of `process_infile`. -/
inductive LoopResult where
  /-- The call `pcap_loop` returns a non-negative value: the input is exhausted. -/
  | finished
  /-- The call `pcap_loop` returns a negative value. -/
  | failed
  /-- A signal is delivered while `pcap_loop` is running. -/
  | signalled (sig : Signal)
  deriving DecidableEq

structure PassWorld where
  /-- The descriptor `it->invoke(infile)` returns for the first inflater that
  is appropriate for the file name; `none` when no inflater is appropriate or
  the program was built without `HAVE_FORK`. -/
  inflate : Option Int
  /-- The call `access("/dev/fd/N", R_OK)` succeeds for that descriptor. -/
  dev_fd_readable : Bool
  /-- Success of `pcap_open_offline` / `pcap_open_live`. -/
  pcap_open : Bool
  pcap_compile : Bool
  pcap_setfilter : Bool
  loop : LoopResult
  deriving DecidableEq

structure Env where
  /-- The value `sizeof(struct be13::ip4)`. -/
  sizeof_ip4 : Nat
  /-- The value `sizeof(struct be13::tcphdr)`. -/
  sizeof_tcphdr : Nat
  /-- Initial value of `flow::filename_template` (flow.cpp). -/
  filename_template : Str
  /-- The `tcpdemux` singleton as constructed (tcpdemux.cpp). -/
  demux : Demux
  /-- The helper `split(optarg, '=')`. -/
  split : Str → Char → List Str
  /-- The macros `HAVE_SEMAPHORE_H` and `HAVE_PTHREAD` are both defined. -/
  have_semaphore : Bool
  /-- The macro `SIGHUP` is defined. -/
  have_sighup : Bool
  /-- The call `stat(outdir)`: `none` if it fails, else whether `S_ISDIR` holds. -/
  stat : Str → Option Bool
  /-- The call `MKDIR(outdir, 0777)` succeeds. -/
  mkdir_ok : Str → Bool
  /-- The call `access(path, R_OK)` succeeds. -/
  access_ok : Str → Bool
  /-- What the outside world does during the `k`-th call of `process_infile`. -/
  pass : Nat → PassWorld
  /-- At the end, `demux.flow_counter > tcpdemux::WARN_TOO_MANY_FILES`. -/
  too_many_flows : Bool
  /-- Number of entries `readdir` reports for the output directory (0 if
  `opendir` fails). -/
  filecount : Nat

/-- The variables of `main`, the globals it uses, and the actions so far. -/
structure State where
  didhelp : Bool
  force_binary_output : Bool
  device : Str
  lockname : Option Str
  need_usage : Bool
  reportfilename : Str
  Rfiles : List Str
  rfiles : List Str
  opt_unk_packets : Str
  opt_quiet : Bool
  trailing_input_list : Bool
  expression : Str
  input_fname : Str
  /-- The global `xreport` is non-null. -/
  xreport : Bool
  opt_no_promisc : Bool
  usage_count : Nat
  /-- The static `flow::filename_template`. -/
  filename_template : Str
  demux : Demux
  /-- Signals whose disposition is `terminate`. -/
  handlers : List Signal
  /-- Number of calls of `process_infile` so far. -/
  calls : Nat
  out : List Action
  deriving DecidableEq

def State.emit (s : State) (as : List Action) : State :=
  { s with out := s.out ++ as }

def State.stop (s : State) (as : List Action) (e : Exit) : Res State :=
  .halt ⟨s.out ++ as, e⟩

/-- State on entry to `main`. -/
def init (env : Env) : State :=
  { didhelp := false
    force_binary_output := false
    device := "<default>".toList
    lockname := none
    need_usage := false
    reportfilename := []
    Rfiles := []
    rfiles := []
    opt_unk_packets := []
    opt_quiet := false
    trailing_input_list := false
    expression := []
    input_fname := []
    xreport := false
    opt_no_promisc := false
    usage_count := 0
    filename_template := env.filename_template
    demux := env.demux
    handlers := []
    calls := 0
    out := [] }

/-! ## `usage` (tcpflow.cpp 77-149) -/

def usage (s : State) : State :=
  let n := s.usage_count + 1
  { s with
    usage_count := n
    out := s.out ++ (if n = 1 then [Action.usage_page 1]
                     else if n = 2 then [Action.usage_page 2] else []) }

/-! ## `terminate` (tcpflow.cpp 190-198) -/

/-- The signal handler: `phase_shutdown(*the_fs,*xreport); exit(0);`. -/
def terminate (_sig : Signal) (s : State) : Halt :=
  ⟨s.out ++ [Action.phase_shutdown], Exit.code 0⟩

/-! ## `main`: the option loop (tcpflow.cpp 417-536) -/

/-- One iteration of the loop over the characters of the `-F` argument
(the inner `switch(*cc)`). -/
def format_case (cc : Char) (s : State) : Res State :=
  match cc with
  | 'c' =>
    match replace s.filename_template "%c".toList "%C".toList with
    | some t => .ok { s with filename_template := t }
    | none => s.stop [] Exit.no_return
  | 'k' => .ok { s with filename_template := "%K/".toList ++ s.filename_template }
  | 'm' => .ok { s with filename_template := "%M000-%M999/%M%K/".toList ++ s.filename_template }
  | 'g' =>
    .ok { s with
          filename_template :=
            "%G000000-%G999999/%G%M000-%G%M999/%G%M%K/".toList ++ s.filename_template }
  | 't' => .ok { s with filename_template := "%tT".toList ++ s.filename_template }
  | 'T' => .ok { s with filename_template := "%T".toList ++ s.filename_template }
  | 'X' => .ok { s with demux := { s.demux with store_output := false } }
  | 'M' => .ok { s with demux := { s.demux with opt_md5 := true } }
  | c => .ok { s.emit [Action.diag (Diag.invalid_format c)] with need_usage := true }

/-- The loop `for(const char *cc=optarg;*cc;cc++)` of case `F`. -/
def format_loop : Str → State → Res State
  | [], s => .ok s
  | cc :: rest, s => (format_case cc s).bind (format_loop rest)

/-- The body of the `switch (arg)` for one value returned by `getopt`. -/
def getopt_case (env : Env) (arg : Char) (optarg : Str) (s : State) : Res State :=
  match arg with
  | 'a' =>
    .ok { s.emit [Action.scanners_enable_all] with
          demux := { s.demux with post_processing := true, opt_md5 := true } }
  | 'A' => .ok { s.emit [Action.diag Diag.deprecated_AH] with need_usage := true }
  | 'b' => .ok s
  | 'B' =>
    .ok { s with
          force_binary_output := true
          demux := { s.demux with output_strip_nonprint := false } }
  | 'C' => .ok { s with demux := { s.demux with console_output := true, suppress_header := true } }
  | 'c' => .ok { s with demux := { s.demux with console_output := true } }
  | 'd' => .ok s
  | 'D' =>
    .ok { s with demux := { s.demux with output_hex := true, output_strip_nonprint := false } }
  | 'e' => .ok (s.emit [Action.scanners_enable optarg])
  | 'F' => format_loop optarg s
  | 'f' => .ok s
  | 'i' => .ok { s with device := optarg }
  | 'J' => .ok s
  | 'l' => .ok { s with trailing_input_list := true }
  | 'L' => .ok { s with lockname := some optarg }
  | 'm' => .ok s
  | 'o' => .ok { s with demux := { s.demux with outdir := optarg } }
  | 'p' => .ok { s with opt_no_promisc := true }
  | 'q' => .ok { s with opt_quiet := true }
  | 'R' => .ok { s with Rfiles := s.Rfiles ++ [optarg] }
  | 'r' => .ok { s with rfiles := s.rfiles ++ [optarg] }
  | 'S' =>
    if (env.split optarg '=').length ≠ 2 then
      s.stop [Action.diag (Diag.invalid_parameter optarg)] (Exit.code 1)
    else .ok s
  | 's' => .ok { s with demux := { s.demux with output_strip_nonprint := true } }
  | 'T' => .ok { s with filename_template := optarg }
  | 'V' => s.stop [Action.print_version] (Exit.code 1)
  | 'v' => .ok s
  | 'w' => .ok { s with opt_unk_packets := optarg }
  | 'x' => .ok (s.emit [Action.scanners_disable optarg])
  | 'X' => .ok { s with reportfilename := optarg }
  | 'Z' => .ok s
  | 'H' => .ok { s.emit [Action.info_scanners true] with didhelp := true }
  | 'h' | '?' => .ok { usage s with didhelp := true }
  | _ => .ok { s with need_usage := true }

/-- The loop `while ((arg = getopt(...)) != EOF)`, over the values `getopt` returns. -/
def getopt_loop (env : Env) : List (Char × Str) → State → Res State
  | [], s => .ok s
  | (arg, optarg) :: rest, s => (getopt_case env arg optarg s).bind (getopt_loop env rest)

/-! ## `main`: after the option loop (tcpflow.cpp 538-648) -/

/-- The loop `for(int i=0;i<argc;i++)` that builds the pcap expression. -/
def build_expression : List Str → Str → Str
  | [], expression => expression
  | a :: rest, expression =>
    build_expression rest
      ((if expression.length > 0 then expression ++ " ".toList else expression) ++ a)

/-- Lines 547-555: load the scanners, and name the report `report.xml` in the
output directory if `-X` gave no name. -/
def load_scanners_and_name_report (s : State) : State :=
  { s with
    out := s.out ++ (if s.demux.opt_md5 then [Action.scanners_enable "md5".toList] else [])
             ++ [Action.load_scanners, Action.scanners_process_commands]
    reportfilename :=
      if s.reportfilename.length = 0 then s.demux.outdir ++ "/".toList ++ "report.xml".toList
      else s.reportfilename }

/-- Lines 538-561: help, the post-processing check, scanner loading, the
default report name, and the exit on `need_usage`. -/
def check_options (s : State) : Res State :=
  if s.didhelp then s.stop [] (Exit.code 0)
  else if s.demux.post_processing && !s.demux.store_output then
    s.stop [Action.diag Diag.post_processing_requires_output] (Exit.code 1)
  else if (load_scanners_and_name_report s).need_usage then
    .halt ⟨(usage (load_scanners_and_name_report s)).out, Exit.code 1⟩
  else .ok (load_scanners_and_name_report s)

/-- Lines 563-576: the remaining arguments. -/
def remaining_arguments (args : List Str) (s : State) : State :=
  if s.trailing_input_list then { s with expression := [], rfiles := s.rfiles ++ args }
  else { s with expression := build_expression args [] }

/-- Lines 580-588: the named semaphore. -/
def open_lock (env : Env) (s : State) : Res State :=
  match s.lockname with
  | some l =>
    if env.have_semaphore then .ok (s.emit [Action.sem_open l])
    else s.stop [Action.diag Diag.no_pthreads] (Exit.code 1)
  | none => .ok s

/-- Line 590: `if(force_binary_output) demux.opt.output_strip_nonprint = false;`. -/
def apply_force_binary (s : State) : State :=
  { s with
    demux := { s.demux with
               output_strip_nonprint :=
                 if s.force_binary_output then false else s.demux.output_strip_nonprint } }

/-- Lines 591-603: the output directory must exist or be created. -/
def check_outdir (env : Env) (s : State) : Res State :=
  match env.stat s.demux.outdir with
  | some isdir =>
    if !isdir then s.stop [Action.diag (Diag.outdir_not_directory s.demux.outdir)] (Exit.code 1)
    else .ok s
  | none =>
    if !env.mkdir_ok s.demux.outdir then
      s.stop [Action.mkdir s.demux.outdir, Action.diag (Diag.cannot_create s.demux.outdir)]
        (Exit.code 1)
    else .ok (s.emit [Action.mkdir s.demux.outdir])

/-- Lines 605-618: `input_fname` and the report. -/
def create_report (s : State) : State :=
  { s with
    input_fname :=
      if s.rfiles.length > 0 then
        s.rfiles.headD [] ++
          (if s.rfiles.length > 1 then
             " + ".toList ++ Nat.toDigits 10 (s.rfiles.length - 1) ++ " more".toList
           else [])
      else []
    xreport := if s.reportfilename.length > 0 then true else s.xreport
    out := s.out ++ (if s.reportfilename.length > 0 then [Action.report_create s.reportfilename]
                     else []) }

/-- Lines 619-626: the `-w` option. -/
def save_unknown (env : Env) (s : State) : Res State :=
  if s.opt_unk_packets.length > 0 then
    if s.input_fname.length = 0 then s.stop [Action.diag Diag.w_requires_r] (Exit.code 1)
    else if !env.access_ok s.input_fname then s.stop [] Exit.die
    else .ok (s.emit [Action.save_unk_packets s.opt_unk_packets s.input_fname])
  else .ok s

/-- Lines 638-642: the feature recorder set. -/
def create_recorders (s : State) : State :=
  s.emit [Action.feature_recorder_set (if s.input_fname.length > 0 then s.input_fname else s.device)]

/-- Everything `main` does before the first input pass (lines 382-648). -/
def startup (env : Env) (opts : List (Char × Str)) (args : List Str) : Res State :=
  if env.sizeof_ip4 ≠ 20 ∨ env.sizeof_tcphdr ≠ 20 then
    .halt ⟨[Action.diag Diag.compile_error], Exit.code 1⟩
  else
    (getopt_loop env opts (init env)).bind fun s =>
    (check_options s).bind fun s =>
    (open_lock env (remaining_arguments args s)).bind fun s =>
    (check_outdir env (apply_force_binary s)).bind fun s =>
    (save_unknown env (create_report s)).bind fun s =>
    .ok (create_recorders s)

/-! ## `process_infile` (tcpflow.cpp 281-377) -/

def signals (env : Env) : List Signal :=
  [Signal.SIGTERM, Signal.SIGINT] ++ (if env.have_sighup then [Signal.SIGHUP] else [])

/-- Line 308: `pcap_open_offline(file_path.c_str(), error)`. -/
def open_offline (w : PassWorld) (file_path : Str) (s : State) : Res State :=
  if !w.pcap_open then s.stop [Action.pcap_open_offline file_path] Exit.die
  else .ok (s.emit [Action.pcap_open_offline file_path])

/-- Lines 288-334: open the capture file, read through `/dev/fd/N` if an
inflater is appropriate for its name, or the live device.  The variable
`device` of `main` is never null, so `pcap_lookupdev` is not reached. -/
def open_capture (w : PassWorld) (device infile : Str) (s : State) : Res State :=
  if infile ≠ [] then
    match w.inflate with
    | some fd =>
      if fd < 0 then s.stop [Action.diag (Diag.decompression_failed infile)] (Exit.code 1)
      else if !w.dev_fd_readable then
        s.stop [Action.diag (Diag.decompression_not_available infile)] (Exit.code 1)
      else open_offline w ("/dev/fd/".toList ++ Nat.toDigits 10 fd.toNat) s
    | none => open_offline w infile s
  else
    if !w.pcap_open then s.stop [Action.pcap_open_live device (!s.opt_no_promisc)] Exit.die
    else .ok (s.emit [Action.pcap_open_live device (!s.opt_no_promisc), Action.setuid])

/-- Lines 350-369: the filter and the signal handlers. -/
def install (env : Env) (w : PassWorld) (expression : Str) (s : State) : Res State :=
  if !w.pcap_compile then s.stop [] Exit.die
  else if !w.pcap_setfilter then s.stop [] Exit.die
  else
    .ok { s with
          out := s.out ++ [Action.pcap_setfilter expression]
                   ++ (signals env).map Action.portable_signal
          handlers := signals env ++ s.handlers }

/-- Lines 371-376: `pcap_loop`, during which a signal may arrive. -/
def capture (w : PassWorld) (s : State) : Res State :=
  match w.loop with
  | .finished => .ok (s.emit [Action.pcap_loop])
  | .failed => s.stop [Action.pcap_loop] Exit.die
  | .signalled sig =>
    if sig ∈ s.handlers then .halt (terminate sig (s.emit [Action.pcap_loop]))
    else s.stop [Action.pcap_loop] (Exit.killed sig)

/-- One call of `process_infile(expression, device, infile)`. -/
def process_infile (env : Env) (expression device infile : Str) (s : State) : Res State :=
  let w := env.pass s.calls
  let s1 : State :=
    { s with
      out := s.out ++ [Action.process_infile expression device infile s.demux.start_new_connections]
      calls := s.calls + 1 }
  (open_capture w device infile s1).bind fun s =>
  (install env w expression s).bind fun s =>
  capture w s

/-! ## `main`: the passes and the shutdown (tcpflow.cpp 650-733) -/

/-- A loop `for(it=files.begin(); it!=files.end(); it++) process_infile(expression,device,*it)`. -/
def process_each (env : Env) : List Str → State → Res State
  | [], s => .ok s
  | f :: rest, s => (process_infile env s.expression s.device f s).bind (process_each env rest)

/-- The assignment `demux.start_new_connections = b`. -/
def State.set_start_new_connections (s : State) (b : Bool) : State :=
  { s with demux := { s.demux with start_new_connections := b } }

/-- Lines 650-674: live capture if there is no input file, else the `-r` files
and then the `-R` files. -/
def process_files (env : Env) (s : State) : Res State :=
  if s.rfiles.length = 0 ∧ s.Rfiles.length = 0 then
    (process_infile env s.expression s.device []
        ((s.emit [Action.setuid]).set_start_new_connections true)).bind fun s =>
      .ok { s with input_fname := s.device }
  else
    (process_each env s.rfiles (s.set_start_new_connections true)).bind fun s =>
      process_each env s.Rfiles (s.set_start_new_connections false)

/-- Lines 676-733: the shutdown sequence after the last pass. -/
def finish (env : Env) (s : State) : Halt :=
  ⟨s.out ++ [Action.close_all_fd, Action.phase_shutdown]
     ++ (if s.xreport then
           [Action.remove_all_flows, Action.report_add_rusage, Action.report_pop,
            Action.report_close, Action.report_delete]
         else [])
     ++ (if env.too_many_flows && !s.opt_quiet && decide (10000 ≤ env.filecount) then
           [Action.warn_directory_entries env.filecount]
         else []),
   Exit.code 0⟩

/-- The function `main`, on the values `getopt` returns and the remaining arguments. -/
def main (env : Env) (opts : List (Char × Str)) (args : List Str) : Halt :=
  match (startup env opts args).bind (process_files env) with
  | .ok s => finish env s
  | .halt h => h

/-! ## Reading a run -/

/-- The input passes of a run: for every call of `process_infile`, the file
name (empty for live capture) and the admission flag in force. -/
def passes_of (out : List Action) : List (Str × Bool) :=
  out.filterMap fun a =>
    match a with
    | .process_infile _ _ infile start => some (infile, start)
    | _ => none

/-- Actions of a run so far, whether or not it has ended. -/
def Res.out : Res State → List Action
  | .ok s => s.out
  | .halt h => h.out

/-! ## Reading a command line -/

/-- The arguments of the `-r` options, in command-line order. -/
def r_files (opts : List (Char × Str)) : List Str :=
  opts.filterMap fun o => if o.1 = 'r' then some o.2 else none

/-- The arguments of the `-R` options, in command-line order. -/
def R_files (opts : List (Char × Str)) : List Str :=
  opts.filterMap fun o => if o.1 = 'R' then some o.2 else none

/-- Option `c` is on the command line. -/
def has_switch (c : Char) (opts : List (Char × Str)) : Bool :=
  opts.any fun o => o.1 == c

/-- The format characters the `-F` switch has a case for. -/
def valid_format (c : Char) : Bool :=
  c ∈ ['c', 'k', 'm', 'g', 't', 'T', 'X', 'M']

/-- The values of `arg` the option switch has a case for. -/
def known_switch (arg : Char) : Bool :=
  arg ∈ "aAbBCcdDeFfiJlLmopqRrSsTVvwxXZHh?".toList

/-- The option is one that sets `need_usage`: the deprecated `-A`, a `-F` with
a format character that has no case, or a value with no case in the switch. -/
def sets_need_usage (o : Char × Str) : Bool :=
  o.1 == 'A' || (o.1 == 'F' && o.2.any fun c => !valid_format c) || !known_switch o.1

/-- The option is one of the help requests `-H`, `-h`, `?`. -/
def is_help (o : Char × Str) : Bool :=
  o.1 == 'H' || o.1 == 'h' || o.1 == '?'

/-- The pass sequence the specification prescribes for the two file lists. -/
def pass_schedule (rlist Rlist : List Str) : List (Str × Bool) :=
  if rlist = [] ∧ Rlist = [] then [([], true)]
  else rlist.map (fun f => (f, true)) ++ Rlist.map (fun f => (f, false))

/-- Decompression does not stop the pass: no inflater is appropriate, or the
one that is gave a descriptor that can be read through `/dev/fd`. -/
def PassWorld.inflate_ok (w : PassWorld) : Bool :=
  match w.inflate with
  | some fd => decide (0 ≤ fd) && w.dev_fd_readable
  | none => true

/-- Nothing goes wrong in the pass and its input is read to the end. -/
def PassWorld.completes (w : PassWorld) : Prop :=
  w.inflate_ok = true ∧ w.pcap_open = true ∧ w.pcap_compile = true
    ∧ w.pcap_setfilter = true ∧ w.loop = LoopResult.finished

/-- The pass gets as far as `pcap_loop`. -/
def PassWorld.reaches_loop (w : PassWorld) : Prop :=
  w.inflate_ok = true ∧ w.pcap_open = true ∧ w.pcap_compile = true
    ∧ w.pcap_setfilter = true

/-- The call `process_infile(_, _, infile)` made in this world comes back to
`main`: the capture source opens (for a file, after any decompression), the
filter is installed and `pcap_loop` reads the input to its end. -/
def PassWorld.returns (w : PassWorld) (infile : Str) : Bool :=
  (infile == [] || w.inflate_ok) && w.pcap_open && w.pcap_compile && w.pcap_setfilter
    && decide (w.loop = LoopResult.finished)

/-- The part of a schedule that is started when its first pass is call number
`k` of `process_infile`: every pass up to and including the first one that
does not come back to `main`. -/
def started (env : Env) : List (Str × Bool) → Nat → List (Str × Bool)
  | [], _ => []
  | p :: rest, k => p :: (if (env.pass k).returns p.1 then started env rest (k + 1) else [])

/-- Every pass of the schedule comes back to `main`, the first being call
number `k`. -/
def all_return (env : Env) : List (Str × Bool) → Nat → Bool
  | [], _ => true
  | p :: rest, k => (env.pass k).returns p.1 && all_return env rest (k + 1)

/-- A sample environment: a correctly compiled binary with the stock template,
an existing output directory, and passes that all read their input to the end. -/
def env0 : Env :=
  { sizeof_ip4 := 20, sizeof_tcphdr := 20
    filename_template := "%A.%a-%B.%b%V%v%C%c".toList
    demux := { post_processing := false, opt_md5 := false, store_output := true,
               output_strip_nonprint := false, console_output := false, suppress_header := false,
               output_hex := false, outdir := ".".toList, start_new_connections := false }
    split := fun s c => s.splitOn c
    have_semaphore := true, have_sighup := true
    stat := fun _ => some true, mkdir_ok := fun _ => true, access_ok := fun _ => true
    pass := fun _ => ⟨none, true, true, true, true, .finished⟩
    too_many_flows := false, filecount := 0 }

/-- The sample environment with an operator interrupt during the first pass. -/
def env_sigint : Env :=
  { env0 with pass := fun _ => ⟨none, true, true, true, true, .signalled Signal.SIGINT⟩ }

/-- A sample command line: `-r a -R b -r c`. -/
def sample_opts : List (Char × Str) :=
  [('r', "a".toList), ('R', "b".toList), ('r', "c".toList)]

/-- The state a result carries, or `d` if the run has ended. -/
def Res.state_or (r : Res State) (d : State) : State :=
  match r with
  | .ok s => s
  | .halt _ => d

/-- The later state has the same file lists, expression, device and demux options. -/
def Keeps (s s' : State) : Prop :=
  s'.rfiles = s.rfiles ∧ s'.Rfiles = s.Rfiles ∧ s'.expression = s.expression
    ∧ s'.device = s.device ∧ s'.demux = s.demux

/-! ## `replace`: the scan and the greedy decomposition -/

theorem intercalate_single (sep p : Str) : List.intercalate sep [p] = p := by
  simp [List.intercalate]

theorem intercalate_two (sep p q : Str) (ps : List Str) :
    List.intercalate sep (p :: q :: ps) = p ++ (sep ++ List.intercalate sep (q :: ps)) := by
  simp [List.intercalate]

theorem replace_loop_eq_scan (str from_ to_ : Str) (hlen : str.length < 2 ^ 32) :
    ∀ fuel i ss ch, i ≤ str.length →
      replace_loop str from_ to_ fuel i ss ch = scan from_ to_ fuel (str.drop i) ss ch := by
  intro fuel
  induction fuel with
  | zero => intro i ss ch _; simp [replace_loop, scan]
  | succ n ih =>
    intro i ss ch hi
    unfold replace_loop
    split_ifs with h1 h2
    · -- match
      have hd : str.drop i = str[i] :: str.drop (i + 1) := List.drop_eq_getElem_cons h1
      have hle : i + from_.length ≤ str.length := by
        have := congrArg List.length h2
        simp at this
        omega
      rw [Nat.mod_eq_of_lt (by omega), ih _ _ _ hle]
      rw [hd] at h2 ⊢
      simp only [scan, h2, if_true]
      rw [← hd, List.drop_drop, Nat.add_comm]
    · have hd : str.drop i = str[i] :: str.drop (i + 1) := List.drop_eq_getElem_cons h1
      rw [Nat.mod_eq_of_lt (by omega), ih _ _ _ (by omega)]
      rw [hd] at h2 ⊢
      simp only [scan, h2, if_false]
    · have : str.drop i = [] := by
        apply List.drop_eq_nil_of_le; omega
      rw [this]; simp [scan]

/-- The first `n` characters of `u ++ t` are those of `u` when `n` is at most the length
of `u`. -/
theorem take_append_left {n : Nat} (u t : Str) (h : n ≤ u.length) :
    (u ++ t).take n = u.take n := by
  rw [List.take_append_of_le_length h]

theorem scan_spec (from_ to_ : Str) (hne : from_ ≠ []) :
    ∀ fuel s ss ch ps, greedy_pieces from_ ps → List.intercalate from_ ps = s →
      s.length < fuel →
      scan from_ to_ fuel s ss ch
        = some (ss ++ List.intercalate to_ ps, ch || decide (2 ≤ ps.length)) := by
  have hpos : 0 < from_.length := List.length_pos.mpr hne
  intro fuel
  induction fuel with
  | zero => intro s ss ch ps _ _ h; omega
  | succ n ih =>
    intro s ss ch ps hg hs hlen
    match ps, hg with
    | [p], hg =>
      rw [intercalate_single] at hs
      subst hs
      simp only [greedy_pieces] at hg
      cases p with
      | nil => simp [scan, intercalate_single]
      | cons c p =>
        have h0 := hg 0 (by simp)
        simp only [occurs_at, List.drop_zero] at h0
        simp only [scan, h0, if_false]
        have hg' : greedy_pieces from_ [p] := by
          simp only [greedy_pieces]
          intro j hj hocc
          exact hg (j + 1) (by simpa using hj) (by simpa [occurs_at] using hocc)
        rw [ih p (ss ++ [c]) ch [p] hg' (intercalate_single _ _) (by simp at hlen; omega)]
        simp [intercalate_single]
    | p :: q :: ps, hg =>
      rw [intercalate_two] at hs
      simp only [greedy_pieces] at hg
      obtain ⟨hp, hrest⟩ := hg
      cases p with
      | nil =>
        simp only [List.nil_append] at hs
        have hfc : ∃ c f, from_ = c :: f := by
          cases from_ with
          | nil => exact absurd rfl hne
          | cons c f => exact ⟨c, f, rfl⟩
        obtain ⟨c, f, hcf⟩ := hfc
        have hs' : s = c :: (f ++ List.intercalate from_ (q :: ps)) := by
          rw [← hs, hcf]; simp
        have htake : (c :: (f ++ List.intercalate from_ (q :: ps))).take from_.length = from_ := by
          have : c :: (f ++ List.intercalate from_ (q :: ps))
              = from_ ++ List.intercalate from_ (q :: ps) := by rw [hcf]; simp
          rw [this]; simp
        have hdrop : (c :: (f ++ List.intercalate from_ (q :: ps))).drop from_.length
            = List.intercalate from_ (q :: ps) := by
          have : c :: (f ++ List.intercalate from_ (q :: ps))
              = from_ ++ List.intercalate from_ (q :: ps) := by rw [hcf]; simp
          rw [this]; simp
        rw [hs']
        simp only [scan, htake, if_true, hdrop]
        rw [ih _ (ss ++ to_) true (q :: ps) hrest rfl (by
          rw [hs'] at hlen
          have : (c :: (f ++ List.intercalate from_ (q :: ps))).length
              = from_.length + (List.intercalate from_ (q :: ps)).length := by
            rw [hcf]; simp; omega
          omega)]
        simp [intercalate_two]
      | cons c p =>
        have h0 := hp 0 (by simp)
        simp only [occurs_at, List.drop_zero] at h0
        have hs' : s = c :: (p ++ (from_ ++ List.intercalate from_ (q :: ps))) := by
          rw [← hs]; simp
        have hno : ¬ (c :: (p ++ (from_ ++ List.intercalate from_ (q :: ps)))).take from_.length
            = from_ := by
          intro hc
          apply h0
          have : c :: (p ++ (from_ ++ List.intercalate from_ (q :: ps)))
              = (c :: p ++ from_) ++ List.intercalate from_ (q :: ps) := by simp
          rw [this, take_append_left _ _ (by simp; omega)] at hc
          exact hc
        rw [hs']
        simp only [scan, hno, if_false]
        have hg' : greedy_pieces from_ (p :: q :: ps) := by
          simp only [greedy_pieces]
          refine ⟨?_, hrest⟩
          intro j hj hocc
          exact hp (j + 1) (by simpa using hj) (by simpa [occurs_at] using hocc)
        rw [ih _ (ss ++ [c]) ch (p :: q :: ps) hg' (intercalate_two _ _ _ _) (by
          rw [hs'] at hlen; simp at hlen ⊢; omega)]
        simp [intercalate_two]

theorem greedy_pieces_exists (from_ : Str) (hne : from_ ≠ []) :
    ∀ n (s : Str), s.length = n → ∃ ps, greedy_pieces from_ ps ∧ List.intercalate from_ ps = s := by
  have hpos : 0 < from_.length := List.length_pos.mpr hne
  intro n
  induction n using Nat.strong_induction_on with
  | _ n ih =>
    intro s hs
    cases s with
    | nil => exact ⟨[[]], by simp [greedy_pieces], by simp [intercalate_single]⟩
    | cons c s =>
      by_cases hocc : (c :: s).take from_.length = from_
      · -- an occurrence starts here: the first piece is empty
        have hsplit : c :: s = from_ ++ (c :: s).drop from_.length := by
          conv_lhs => rw [← List.take_append_drop from_.length (c :: s)]
          rw [hocc]
        have hlt : ((c :: s).drop from_.length).length < n := by
          simp only [List.length_drop]
          simp only [List.length_cons] at hs ⊢
          omega
        obtain ⟨ps, hg, hps⟩ := ih _ hlt _ rfl
        match ps, hg with
        | q :: ps, hg =>
          refine ⟨[] :: q :: ps, ?_, ?_⟩
          · simp only [greedy_pieces]
            exact ⟨by simp, hg⟩
          · rw [intercalate_two, hps, List.nil_append]
            exact hsplit.symm
      · obtain ⟨ps, hg, hps⟩ := ih s.length (by simp at hs; omega) s rfl
        match ps, hg with
        | [p], hg =>
          rw [intercalate_single] at hps
          subst hps
          refine ⟨[c :: p], ?_, by simp [intercalate_single]⟩
          simp only [greedy_pieces] at hg ⊢
          intro j hj
          cases j with
          | zero => simpa [occurs_at] using hocc
          | succ j =>
            have := hg j (by simpa using hj)
            simpa [occurs_at] using this
        | p :: q :: ps, hg =>
          simp only [greedy_pieces] at hg
          refine ⟨(c :: p) :: q :: ps, ?_, ?_⟩
          · simp only [greedy_pieces]
            refine ⟨?_, hg.2⟩
            intro j hj
            cases j with
            | zero =>
              intro hc
              apply hocc
              simp only [occurs_at, List.drop_zero] at hc
              rw [← hps, intercalate_two]
              have : c :: (p ++ (from_ ++ List.intercalate from_ (q :: ps)))
                  = (c :: p ++ from_) ++ List.intercalate from_ (q :: ps) := by simp
              rw [this, take_append_left _ _ (by simp; omega)]
              exact hc
            | succ j =>
              have := hg.1 j (by simpa using hj)
              simpa [occurs_at] using this
          · rw [intercalate_two] at hps ⊢
            rw [← hps]; simp

/-- On a string of `2 ^ 32` or more characters the index of `replace` wraps
around before it can reach the end: the loop never ends, whatever the fuel. -/
theorem replace_loop_none_of_large (str from_ to_ : Str) (h : 2 ^ 32 ≤ str.length) :
    ∀ fuel i ss ch, i < 2 ^ 32 → replace_loop str from_ to_ fuel i ss ch = none := by
  intro fuel
  induction fuel with
  | zero => intro i ss ch _; rfl
  | succ n ih =>
    intro i ss ch hi
    have hlt : i < str.length := by omega
    unfold replace_loop
    rw [dif_pos hlt]
    split_ifs
    · exact ih _ _ _ (Nat.mod_lt _ (by norm_num))
    · exact ih _ _ _ (Nat.mod_lt _ (by norm_num))

/-! ## The option loop: what one case changes -/

theorem format_case_ok {cc : Char} {s s' : State} (h : format_case cc s = .ok s') :
    s'.rfiles = s.rfiles ∧ s'.Rfiles = s.Rfiles
    ∧ s'.trailing_input_list = s.trailing_input_list
    ∧ s'.force_binary_output = s.force_binary_output
    ∧ s'.didhelp = s.didhelp ∧ s'.usage_count = s.usage_count
    ∧ s'.need_usage = (s.need_usage || !valid_format cc)
    ∧ passes_of s'.out = passes_of s.out := by
  unfold format_case at h
  split at h
  · split at h
    · simp only [Res.ok.injEq] at h; subst h; simp [valid_format]
    · simp [State.stop] at h
  all_goals
    simp only [Res.ok.injEq] at h; subst h
    simp [valid_format, State.emit, passes_of, List.filterMap_append]
    try simp_all

theorem format_case_halt {cc : Char} {s : State} {hh : Halt} (h : format_case cc s = .halt hh) :
    hh.exit = Exit.no_return ∧ passes_of hh.out = passes_of s.out := by
  unfold format_case at h
  split at h
  · split at h
    · simp at h
    · simp only [State.stop, Res.halt.injEq] at h; subst h; simp
  all_goals simp at h

theorem format_loop_ok : ∀ (optarg : Str) {s s' : State}, format_loop optarg s = .ok s' →
    s'.rfiles = s.rfiles ∧ s'.Rfiles = s.Rfiles
    ∧ s'.trailing_input_list = s.trailing_input_list
    ∧ s'.force_binary_output = s.force_binary_output
    ∧ s'.didhelp = s.didhelp ∧ s'.usage_count = s.usage_count
    ∧ s'.need_usage = (s.need_usage || optarg.any fun c => !valid_format c)
    ∧ passes_of s'.out = passes_of s.out
  | [], s, s', h => by
    simp only [format_loop, Res.ok.injEq] at h; subst h; simp
  | cc :: rest, s, s', h => by
    simp only [format_loop, Res.bind] at h
    split at h
    · rename_i s1 h1
      have a := format_case_ok h1
      have b := format_loop_ok rest h
      obtain ⟨a1, a2, a3, a4, a5, a6, a7, a8⟩ := a
      obtain ⟨b1, b2, b3, b4, b5, b6, b7, b8⟩ := b
      refine ⟨by rw [b1, a1], by rw [b2, a2], by rw [b3, a3], by rw [b4, a4], by rw [b5, a5],
        by rw [b6, a6], ?_, by rw [b8, a8]⟩
      rw [b7, a7]; simp [Bool.or_assoc]
    · simp at h

theorem format_loop_halt : ∀ (optarg : Str) {s : State} {hh : Halt},
    format_loop optarg s = .halt hh →
    hh.exit = Exit.no_return ∧ passes_of hh.out = passes_of s.out
  | [], s, hh, h => by simp [format_loop] at h
  | cc :: rest, s, hh, h => by
    simp only [format_loop, Res.bind] at h
    split at h
    · rename_i s1 h1
      have a := format_case_ok h1
      have b := format_loop_halt rest h
      exact ⟨b.1, by rw [b.2, a.2.2.2.2.2.2.2]⟩
    · rename_i h1 hc
      simp only [Res.halt.injEq] at h; subst h
      exact format_case_halt hc

theorem getopt_case_ok {env : Env} {arg : Char} {optarg : Str} {s s' : State}
    (h : getopt_case env arg optarg s = .ok s') :
    s'.rfiles = s.rfiles ++ (if arg = 'r' then [optarg] else [])
    ∧ s'.Rfiles = s.Rfiles ++ (if arg = 'R' then [optarg] else [])
    ∧ s'.trailing_input_list = (s.trailing_input_list || arg == 'l')
    ∧ s'.force_binary_output = (s.force_binary_output || arg == 'B')
    ∧ s'.didhelp = (s.didhelp || is_help (arg, optarg))
    ∧ (s.usage_count = 0 ∨ s.didhelp = true → s'.usage_count = 0 ∨ s'.didhelp = true)
    ∧ s'.need_usage = (s.need_usage || sets_need_usage (arg, optarg))
    ∧ passes_of s'.out = passes_of s.out := by
  unfold getopt_case at h
  split at h
  case h_10 =>
    have a := format_loop_ok optarg h
    obtain ⟨a1, a2, a3, a4, a5, a6, a7, a8⟩ := a
    simp [a1, a2, a3, a4, a5, a6, a7, a8, is_help, sets_need_usage, known_switch]
  case h_22 =>
    split at h
    · simp [State.stop] at h
    · simp only [Res.ok.injEq] at h; subst h
      simp [is_help, sets_need_usage, known_switch]
  case h_25 => simp [State.stop] at h
  case h_32 =>
    simp only [Res.ok.injEq] at h; subst h
    simp [is_help, sets_need_usage, known_switch, usage, passes_of, List.filterMap_append]
    split_ifs <;> simp
  case h_33 =>
    simp only [Res.ok.injEq] at h; subst h
    simp [is_help, sets_need_usage, known_switch, usage, passes_of, List.filterMap_append]
    split_ifs <;> simp
  all_goals
    simp only [Res.ok.injEq] at h; subst h
    simp [is_help, sets_need_usage, known_switch, State.emit, passes_of, List.filterMap_append]
    try simp_all

theorem getopt_case_halt {env : Env} {arg : Char} {optarg : Str} {s : State} {hh : Halt}
    (h : getopt_case env arg optarg s = .halt hh) :
    (hh.exit = Exit.code 1 ∨ hh.exit = Exit.no_return) ∧ passes_of hh.out = passes_of s.out := by
  unfold getopt_case at h
  split at h
  case h_10 =>
    have a := format_loop_halt optarg h
    exact ⟨Or.inr a.1, a.2⟩
  case h_22 =>
    split at h
    · simp only [State.stop, Res.halt.injEq] at h; subst h
      simp [passes_of, List.filterMap_append]
    · simp at h
  case h_25 =>
    simp only [State.stop, Res.halt.injEq] at h; subst h
    simp [passes_of, List.filterMap_append]
  all_goals simp at h

theorem getopt_loop_ok {env : Env} : ∀ (opts : List (Char × Str)) {s s' : State},
    getopt_loop env opts s = .ok s' →
    s'.rfiles = s.rfiles ++ r_files opts
    ∧ s'.Rfiles = s.Rfiles ++ R_files opts
    ∧ s'.trailing_input_list = (s.trailing_input_list || has_switch 'l' opts)
    ∧ s'.force_binary_output = (s.force_binary_output || has_switch 'B' opts)
    ∧ s'.didhelp = (s.didhelp || opts.any is_help)
    ∧ (s.usage_count = 0 ∨ s.didhelp = true → s'.usage_count = 0 ∨ s'.didhelp = true)
    ∧ s'.need_usage = (s.need_usage || opts.any sets_need_usage)
    ∧ passes_of s'.out = passes_of s.out
  | [], s, s', h => by
    simp only [getopt_loop, Res.ok.injEq] at h; subst h
    simp [r_files, R_files, has_switch]
  | (arg, optarg) :: rest, s, s', h => by
    simp only [getopt_loop, Res.bind] at h
    split at h
    · rename_i s1 h1
      obtain ⟨a1, a2, a3, a4, a5, a6, a7, a8⟩ := getopt_case_ok h1
      obtain ⟨b1, b2, b3, b4, b5, b6, b7, b8⟩ := getopt_loop_ok rest h
      refine ⟨?_, ?_, ?_, ?_, ?_, fun hu => b6 (a6 hu), ?_, by rw [b8, a8]⟩
      · rw [b1, a1]; by_cases hr : arg = 'r' <;> simp [r_files, hr]
      · rw [b2, a2]; by_cases hr : arg = 'R' <;> simp [R_files, hr]
      · rw [b3, a3]; simp [has_switch, Bool.or_assoc]
      · rw [b4, a4]; simp [has_switch, Bool.or_assoc]
      · rw [b5, a5]; simp [Bool.or_assoc]
      · rw [b7, a7]; simp [Bool.or_assoc]
    · simp at h

theorem getopt_loop_halt {env : Env} : ∀ (opts : List (Char × Str)) {s : State} {hh : Halt},
    getopt_loop env opts s = .halt hh →
    (hh.exit = Exit.code 1 ∨ hh.exit = Exit.no_return) ∧ passes_of hh.out = passes_of s.out
  | [], s, hh, h => by simp [getopt_loop] at h
  | (arg, optarg) :: rest, s, hh, h => by
    simp only [getopt_loop, Res.bind] at h
    split at h
    · rename_i s1 h1
      have a := getopt_case_ok h1
      have b := getopt_loop_halt rest h
      exact ⟨b.1, by rw [b.2, a.2.2.2.2.2.2.2]⟩
    · rename_i h1 hc
      simp only [Res.halt.injEq] at h; subst h
      exact getopt_case_halt hc

/-! ## After the option loop -/

theorem Res.bind_eq_ok {α β : Type} {r : Res α} {f : α → Res β} {b : β} :
    r.bind f = .ok b ↔ ∃ a, r = .ok a ∧ f a = .ok b := by
  cases r <;> simp [Res.bind]

theorem Res.bind_eq_halt {α β : Type} {r : Res α} {f : α → Res β} {hh : Halt} :
    r.bind f = .halt hh ↔ r = .halt hh ∨ ∃ a, r = .ok a ∧ f a = .halt hh := by
  cases r <;> simp [Res.bind]

theorem Keeps.refl (s : State) : Keeps s s := ⟨rfl, rfl, rfl, rfl, rfl⟩

theorem Keeps.trans {a b c : State} (h1 : Keeps a b) (h2 : Keeps b c) : Keeps a c := by
  obtain ⟨a1, a2, a3, a4, a5⟩ := h1
  obtain ⟨b1, b2, b3, b4, b5⟩ := h2
  exact ⟨by rw [b1, a1], by rw [b2, a2], by rw [b3, a3], by rw [b4, a4], by rw [b5, a5]⟩

theorem usage_passes (s : State) : passes_of (usage s).out = passes_of s.out := by
  simp only [usage, passes_of, List.filterMap_append]
  split_ifs <;> simp

theorem load_scanners_passes (s : State) :
    passes_of (load_scanners_and_name_report s).out = passes_of s.out := by
  simp only [load_scanners_and_name_report, passes_of, List.filterMap_append]
  split_ifs <;> simp

theorem check_options_ok {s s' : State} (h : check_options s = .ok s') :
    s.didhelp = false ∧ s.need_usage = false
    ∧ s'.trailing_input_list = s.trailing_input_list
    ∧ s'.force_binary_output = s.force_binary_output
    ∧ Keeps s s' ∧ passes_of s'.out = passes_of s.out := by
  unfold check_options at h
  split_ifs at h with h1 h2 h3
  · simp [State.stop] at h
  · simp [State.stop] at h
  · simp only [Res.ok.injEq] at h; subst h
    simp only [Bool.not_eq_true] at h1 h3
    exact ⟨h1, h3, rfl, rfl, ⟨rfl, rfl, rfl, rfl, rfl⟩, load_scanners_passes s⟩

theorem check_options_halt {s : State} {hh : Halt} (h : check_options s = .halt hh) :
    passes_of hh.out = passes_of s.out
    ∧ (s.didhelp = false → hh.exit = Exit.code 1)
    ∧ (s.didhelp = false → (s.demux.post_processing && !s.demux.store_output) = false →
        s.usage_count = 0 → Action.usage_page 1 ∈ hh.out) := by
  unfold check_options at h
  split_ifs at h with h1 h2 h3
  · simp only [State.stop, Res.halt.injEq] at h; subst h
    simp [h1]
  · simp only [State.stop, Res.halt.injEq] at h; subst h
    refine ⟨by simp [passes_of, List.filterMap_append], fun _ => rfl, ?_⟩
    intro _ hpp; rw [hpp] at h2; exact absurd h2 (by simp)
  · simp only [Res.halt.injEq] at h; subst h
    refine ⟨by rw [usage_passes, load_scanners_passes], fun _ => rfl, ?_⟩
    intro _ _ hu
    have : (load_scanners_and_name_report s).usage_count = 0 := hu
    simp [usage, this]

theorem check_options_need_usage {s : State} (h : s.need_usage = true) :
    ∃ hh, check_options s = .halt hh := by
  unfold check_options
  split_ifs with h1 h2 h3
  · exact ⟨_, rfl⟩
  · exact ⟨_, rfl⟩
  · exact ⟨_, rfl⟩
  · exact absurd h h3

theorem open_lock_ok {env : Env} {s s' : State} (h : open_lock env s = .ok s') :
    s'.force_binary_output = s.force_binary_output ∧ Keeps s s'
    ∧ passes_of s'.out = passes_of s.out := by
  unfold open_lock at h
  split at h
  · split_ifs at h
    · simp only [Res.ok.injEq] at h; subst h
      exact ⟨rfl, ⟨rfl, rfl, rfl, rfl, rfl⟩, by simp [State.emit, passes_of, List.filterMap_append]⟩
    · simp [State.stop] at h
  · simp only [Res.ok.injEq] at h; subst h
    exact ⟨rfl, Keeps.refl _, rfl⟩

theorem check_outdir_ok {env : Env} {s s' : State} (h : check_outdir env s = .ok s') :
    Keeps s s' ∧ passes_of s'.out = passes_of s.out := by
  unfold check_outdir at h
  split at h
  · split_ifs at h
    · simp [State.stop] at h
    · simp only [Res.ok.injEq] at h; subst h
      exact ⟨Keeps.refl _, rfl⟩
  · split_ifs at h
    · simp [State.stop] at h
    · simp only [Res.ok.injEq] at h; subst h
      exact ⟨⟨rfl, rfl, rfl, rfl, rfl⟩, by simp [State.emit, passes_of, List.filterMap_append]⟩

theorem create_report_keeps (s : State) :
    Keeps s (create_report s) ∧ passes_of (create_report s).out = passes_of s.out := by
  refine ⟨⟨rfl, rfl, rfl, rfl, rfl⟩, ?_⟩
  simp only [create_report, passes_of, List.filterMap_append]
  split_ifs <;> simp

theorem save_unknown_ok {env : Env} {s s' : State} (h : save_unknown env s = .ok s') :
    Keeps s s' ∧ passes_of s'.out = passes_of s.out := by
  unfold save_unknown at h
  split_ifs at h
  · simp [State.stop] at h
  · simp [State.stop] at h
  · simp only [Res.ok.injEq] at h; subst h
    exact ⟨⟨rfl, rfl, rfl, rfl, rfl⟩, by simp [State.emit, passes_of, List.filterMap_append]⟩
  · simp only [Res.ok.injEq] at h; subst h
    exact ⟨Keeps.refl _, rfl⟩

theorem create_recorders_keeps (s : State) :
    Keeps s (create_recorders s) ∧ passes_of (create_recorders s).out = passes_of s.out :=
  ⟨⟨rfl, rfl, rfl, rfl, rfl⟩, by simp [create_recorders, State.emit, passes_of, List.filterMap_append]⟩

/-- What a successful `startup` leaves behind, in terms of the state `s1` at the
end of the option loop. -/
theorem startup_ok {env : Env} {opts : List (Char × Str)} {args : List Str} {s : State}
    (h : startup env opts args = .ok s) :
    ∃ s1, getopt_loop env opts (init env) = .ok s1
      ∧ s1.didhelp = false ∧ s1.need_usage = false
      ∧ s.rfiles = s1.rfiles ++ (if s1.trailing_input_list then args else [])
      ∧ s.Rfiles = s1.Rfiles
      ∧ s.expression = (if s1.trailing_input_list then [] else build_expression args [])
      ∧ s.demux.output_strip_nonprint
          = (if s1.force_binary_output then false else s1.demux.output_strip_nonprint)
      ∧ passes_of s.out = [] := by
  by_cases hsz : env.sizeof_ip4 ≠ 20 ∨ env.sizeof_tcphdr ≠ 20
  · simp [startup, hsz] at h
  · simp only [startup, if_neg hsz] at h
    obtain ⟨s1, h1, h⟩ := Res.bind_eq_ok.mp h
    obtain ⟨s2, h2, h⟩ := Res.bind_eq_ok.mp h
    obtain ⟨s3, h3, h⟩ := Res.bind_eq_ok.mp h
    obtain ⟨s4, h4, h⟩ := Res.bind_eq_ok.mp h
    obtain ⟨s5, h5, h⟩ := Res.bind_eq_ok.mp h
    simp only [Res.ok.injEq] at h
    obtain ⟨c1, c2, c3, c4, ck, cp⟩ := check_options_ok h2
    obtain ⟨l1, lk, lp⟩ := open_lock_ok h3
    obtain ⟨ok, op⟩ := check_outdir_ok h4
    obtain ⟨rk, rp⟩ := create_report_keeps s4
    obtain ⟨uk, up⟩ := save_unknown_ok h5
    obtain ⟨fk, fp⟩ := create_recorders_keeps s5
    have hp1 := (getopt_loop_ok opts h1).2.2.2.2.2.2.2
    have kk : Keeps (apply_force_binary s3) s := by
      rw [← h]; exact (ok.trans (rk.trans (uk.trans fk)))
    obtain ⟨k1, k2, k3, k4, k5⟩ := kk
    obtain ⟨m1, m2, m3, m4, m5⟩ := lk
    obtain ⟨n1, n2, n3, n4, n5⟩ := ck
    have hfb : s3.force_binary_output = s1.force_binary_output := by
      rw [l1]; unfold remaining_arguments; split_ifs <;> exact c4
    have hdm : s3.demux = s1.demux := by
      rw [m5]; unfold remaining_arguments; split_ifs <;> exact n5
    refine ⟨s1, h1, c1, c2, ?_, ?_, ?_, ?_, ?_⟩
    · rw [k1]; show s3.rfiles = _
      rw [m1]; unfold remaining_arguments
      rw [c3]; split_ifs <;> simp [n1]
    · rw [k2]; show s3.Rfiles = _
      rw [m2]; unfold remaining_arguments
      split_ifs <;> exact n2
    · rw [k3]; show s3.expression = _
      rw [m3]; unfold remaining_arguments
      rw [c3]; split_ifs <;> rfl
    · rw [k5]; show (if s3.force_binary_output then false else s3.demux.output_strip_nonprint) = _
      rw [hfb, hdm]
    · rw [← h, fp, up, rp, op]
      show passes_of s3.out = []
      rw [lp]
      have : passes_of (remaining_arguments args s2).out = passes_of s2.out := by
        unfold remaining_arguments; split_ifs <;> rfl
      rw [this, cp, hp1]; rfl

/-! ## The passes -/

theorem passes_of_append (a b : List Action) :
    passes_of (a ++ b) = passes_of a ++ passes_of b := by
  simp [passes_of, List.filterMap_append]

theorem passes_of_portable_signal (l : List Signal) :
    passes_of (l.map Action.portable_signal) = [] := by
  induction l with
  | nil => rfl
  | cons a l ih =>
    simp only [List.map_cons, passes_of, List.filterMap_cons] at ih ⊢
    exact ih

theorem open_offline_ok {w : PassWorld} {file_path : Str} {s s' : State}
    (h : open_offline w file_path s = .ok s') :
    Keeps s s' ∧ passes_of s'.out = passes_of s.out ∧ s'.calls = s.calls := by
  unfold open_offline at h
  split_ifs at h
  · simp [State.stop] at h
  · simp only [Res.ok.injEq] at h; subst h
    exact ⟨⟨rfl, rfl, rfl, rfl, rfl⟩, by simp [State.emit, passes_of_append, passes_of], rfl⟩

theorem open_offline_halt {w : PassWorld} {file_path : Str} {s : State} {hh : Halt}
    (h : open_offline w file_path s = .halt hh) :
    passes_of hh.out = passes_of s.out := by
  unfold open_offline at h
  split_ifs at h
  simp only [State.stop, Res.halt.injEq] at h; subst h
  simp [passes_of_append, passes_of]

theorem open_capture_ok {w : PassWorld} {device infile : Str} {s s' : State}
    (h : open_capture w device infile s = .ok s') :
    Keeps s s' ∧ passes_of s'.out = passes_of s.out ∧ s'.calls = s.calls := by
  unfold open_capture at h
  by_cases hi : infile = []
  · simp only [hi, ne_eq, not_true_eq_false, if_false] at h
    split_ifs at h
    · simp [State.stop] at h
    · simp only [Res.ok.injEq] at h; subst h
      exact ⟨⟨rfl, rfl, rfl, rfl, rfl⟩, by simp [State.emit, passes_of_append, passes_of], rfl⟩
  · simp only [ne_eq, hi, not_false_eq_true, if_true] at h
    split at h
    · split_ifs at h
      · simp [State.stop] at h
      · simp [State.stop] at h
      · exact open_offline_ok h
    · exact open_offline_ok h

theorem open_capture_halt {w : PassWorld} {device infile : Str} {s : State} {hh : Halt}
    (h : open_capture w device infile s = .halt hh) :
    passes_of hh.out = passes_of s.out := by
  unfold open_capture at h
  by_cases hi : infile = []
  · simp only [hi, ne_eq, not_true_eq_false, if_false] at h
    split_ifs at h
    simp only [State.stop, Res.halt.injEq] at h; subst h
    simp [passes_of_append, passes_of]
  · simp only [ne_eq, hi, not_false_eq_true, if_true] at h
    split at h
    · split_ifs at h
      · simp only [State.stop, Res.halt.injEq] at h; subst h
        simp [passes_of_append, passes_of]
      · simp only [State.stop, Res.halt.injEq] at h; subst h
        simp [passes_of_append, passes_of]
      · exact open_offline_halt h
    · exact open_offline_halt h

/-- The capture source opens exactly when decompression (for a file) and the
pcap open call succeed. -/
theorem open_capture_opens (w : PassWorld) (device infile : Str) (s : State) :
    (((infile == [] || w.inflate_ok) && w.pcap_open) = true →
      ∃ s', open_capture w device infile s = .ok s')
    ∧ (((infile == [] || w.inflate_ok) && w.pcap_open) = false →
      ∃ hh, open_capture w device infile s = .halt hh) := by
  unfold open_capture open_offline PassWorld.inflate_ok
  by_cases hi : infile = []
  · subst hi
    cases hp : w.pcap_open <;> simp [State.stop]
  · have hb : (infile == []) = false := by simpa using hi
    cases hp : w.pcap_open <;> cases hinf : w.inflate with
    | none => simp [hi, hb, State.stop]
    | some fd =>
      by_cases hfd : fd < 0
      · have : ¬ (0 ≤ fd) := by omega
        simp [hi, hb, State.stop, hfd, this]
      · have : 0 ≤ fd := by omega
        cases hr : w.dev_fd_readable <;> simp [hi, hb, State.stop, hfd, this]

theorem install_ok {env : Env} {w : PassWorld} {expression : Str} {s s' : State}
    (h : install env w expression s = .ok s') :
    Keeps s s' ∧ passes_of s'.out = passes_of s.out ∧ s'.calls = s.calls := by
  unfold install at h
  split_ifs at h <;>
    first
    | (simp [State.stop] at h; done)
    | (simp only [Res.ok.injEq] at h; subst h
       exact ⟨⟨rfl, rfl, rfl, rfl, rfl⟩,
         by simp [passes_of_append, passes_of_portable_signal, passes_of], rfl⟩)

theorem install_halt {env : Env} {w : PassWorld} {expression : Str} {s : State} {hh : Halt}
    (h : install env w expression s = .halt hh) :
    passes_of hh.out = passes_of s.out := by
  unfold install at h
  split_ifs at h <;>
    (simp only [State.stop, Res.halt.injEq] at h; subst h
     simp [passes_of_append, passes_of])

theorem capture_ok {w : PassWorld} {s s' : State} (h : capture w s = .ok s') :
    Keeps s s' ∧ passes_of s'.out = passes_of s.out ∧ s'.calls = s.calls := by
  unfold capture at h
  split at h
  · simp only [Res.ok.injEq] at h; subst h
    exact ⟨⟨rfl, rfl, rfl, rfl, rfl⟩, by simp [State.emit, passes_of_append, passes_of], rfl⟩
  · simp [State.stop] at h
  · split_ifs at h
    simp [State.stop] at h

theorem capture_halt {w : PassWorld} {s : State} {hh : Halt} (h : capture w s = .halt hh) :
    passes_of hh.out = passes_of s.out := by
  unfold capture at h
  split at h
  · simp at h
  · simp only [State.stop, Res.halt.injEq] at h; subst h
    simp [passes_of_append, passes_of]
  · split_ifs at h
    · simp only [terminate, State.emit, Res.halt.injEq] at h; subst h
      simp [passes_of_append, passes_of]
    · simp only [State.stop, Res.halt.injEq] at h; subst h
      simp [passes_of_append, passes_of]

theorem process_infile_ok {env : Env} {expression device infile : Str} {s s' : State}
    (h : process_infile env expression device infile s = .ok s') :
    Keeps s s'
    ∧ passes_of s'.out = passes_of s.out ++ [(infile, s.demux.start_new_connections)]
    ∧ s'.calls = s.calls + 1 := by
  simp only [process_infile] at h
  obtain ⟨s1, h1, h⟩ := Res.bind_eq_ok.mp h
  obtain ⟨s2, h2, h⟩ := Res.bind_eq_ok.mp h
  obtain ⟨k1, p1, c1⟩ := open_capture_ok h1
  obtain ⟨k2, p2, c2⟩ := install_ok h2
  obtain ⟨k3, p3, c3⟩ := capture_ok h
  refine ⟨?_, ?_, ?_⟩
  · have := (k1.trans (k2.trans k3))
    exact this
  · rw [p3, p2, p1]; simp [passes_of_append, passes_of]
  · rw [c3, c2, c1]

theorem process_infile_halt {env : Env} {expression device infile : Str} {s : State} {hh : Halt}
    (h : process_infile env expression device infile s = .halt hh) :
    passes_of hh.out = passes_of s.out ++ [(infile, s.demux.start_new_connections)] := by
  simp only [process_infile] at h
  rcases Res.bind_eq_halt.mp h with h1 | ⟨s1, h1, h⟩
  · rw [open_capture_halt h1]; simp [passes_of_append, passes_of]
  · obtain ⟨k1, p1, c1⟩ := open_capture_ok h1
    rcases Res.bind_eq_halt.mp h with h2 | ⟨s2, h2, h⟩
    · rw [install_halt h2, p1]; simp [passes_of_append, passes_of]
    · obtain ⟨k2, p2, c2⟩ := install_ok h2
      rw [capture_halt h, p2, p1]; simp [passes_of_append, passes_of]

theorem install_installs (env : Env) (w : PassWorld) (expression : Str) (s : State) :
    ((w.pcap_compile && w.pcap_setfilter) = true → ∃ s', install env w expression s = .ok s')
    ∧ ((w.pcap_compile && w.pcap_setfilter) = false →
        ∃ hh, install env w expression s = .halt hh) := by
  unfold install
  cases hc : w.pcap_compile <;> cases hf : w.pcap_setfilter <;> simp [State.stop]

theorem capture_captures (w : PassWorld) (s : State) :
    (w.loop = LoopResult.finished → ∃ s', capture w s = .ok s')
    ∧ (w.loop ≠ LoopResult.finished → ∃ hh, capture w s = .halt hh) := by
  unfold capture
  cases hl : w.loop with
  | finished => simp
  | failed => simp [State.stop]
  | signalled sig =>
    refine ⟨by simp, fun _ => ?_⟩
    show ∃ hh, (if sig ∈ s.handlers then _ else _) = Res.halt hh
    split_ifs
    · exact ⟨_, rfl⟩
    · exact ⟨_, rfl⟩

/-- The call comes back to `main` exactly in the worlds described by
`PassWorld.returns`; otherwise it ends the process. -/
theorem process_infile_returns (env : Env) (expression device infile : Str) (s : State) :
    ((env.pass s.calls).returns infile = true →
      ∃ s', process_infile env expression device infile s = .ok s')
    ∧ ((env.pass s.calls).returns infile = false →
      ∃ hh, process_infile env expression device infile s = .halt hh) := by
  unfold process_infile
  simp only []
  generalize env.pass s.calls = w
  generalize ({ s with
      out := s.out ++ [Action.process_infile expression device infile
                        s.demux.start_new_connections]
      calls := s.calls + 1 } : State) = s1
  obtain ⟨hop, hnop⟩ := open_capture_opens w device infile s1
  unfold PassWorld.returns
  cases hopen : ((infile == [] || w.inflate_ok) && w.pcap_open)
  · obtain ⟨hh, h1⟩ := hnop hopen
    exact ⟨by simp, fun _ => ⟨hh, by rw [h1]; rfl⟩⟩
  · obtain ⟨s2, h1⟩ := hop hopen
    rw [h1]
    obtain ⟨hin, hnin⟩ := install_installs env w expression s2
    cases hinst : (w.pcap_compile && w.pcap_setfilter)
    · obtain ⟨hh, h2⟩ := hnin hinst
      refine ⟨?_, fun _ => ⟨hh, by simp only [Res.bind, h2]⟩⟩
      intro h
      rw [Bool.and_assoc, Bool.and_assoc, ← Bool.and_assoc w.pcap_compile, hinst] at h
      simp at h
    · obtain ⟨s3, h2⟩ := hin hinst
      obtain ⟨hcap, hncap⟩ := capture_captures w s3
      by_cases hl : w.loop = LoopResult.finished
      · obtain ⟨s4, h3⟩ := hcap hl
        refine ⟨fun _ => ⟨s4, by simp only [Res.bind, h2, h3]⟩, ?_⟩
        intro h
        rw [Bool.and_assoc, Bool.and_assoc, ← Bool.and_assoc w.pcap_compile, hinst] at h
        simp [hl] at h
      · obtain ⟨hh, h3⟩ := hncap hl
        refine ⟨?_, fun _ => ⟨hh, by simp only [Res.bind, h2, h3]⟩⟩
        intro h
        simp [hl] at h

theorem returns_of_completes {w : PassWorld} (hw : w.completes) (infile : Str) :
    w.returns infile = true := by
  obtain ⟨w1, w2, w3, w4, w5⟩ := hw
  simp [PassWorld.returns, w1, w2, w3, w4, w5]

theorem process_infile_completes {env : Env} (expression device infile : Str) (s : State)
    (hw : (env.pass s.calls).completes) :
    ∃ s', process_infile env expression device infile s = .ok s' :=
  (process_infile_returns env expression device infile s).1 (returns_of_completes hw infile)

theorem process_each_ok {env : Env} : ∀ (files : List Str) {s s' : State},
    process_each env files s = .ok s' →
    Keeps s s'
    ∧ passes_of s'.out
        = passes_of s.out ++ files.map (fun f => (f, s.demux.start_new_connections))
  | [], s, s', h => by
    simp only [process_each, Res.ok.injEq] at h; subst h
    exact ⟨Keeps.refl _, by simp⟩
  | f :: rest, s, s', h => by
    simp only [process_each] at h
    obtain ⟨s1, h1, h⟩ := Res.bind_eq_ok.mp h
    obtain ⟨k1, p1, _⟩ := process_infile_ok h1
    obtain ⟨k2, p2⟩ := process_each_ok rest h
    refine ⟨k1.trans k2, ?_⟩
    rw [p2, p1, k1.2.2.2.2]; simp

theorem process_each_halt {env : Env} : ∀ (files : List Str) {s : State} {hh : Halt},
    process_each env files s = .halt hh →
    ∃ n, passes_of hh.out
        = passes_of s.out ++ (files.take n).map (fun f => (f, s.demux.start_new_connections))
  | [], s, hh, h => by simp [process_each] at h
  | f :: rest, s, hh, h => by
    simp only [process_each] at h
    rcases Res.bind_eq_halt.mp h with h1 | ⟨s1, h1, h⟩
    · exact ⟨1, by rw [process_infile_halt h1]; simp⟩
    · obtain ⟨k1, p1, _⟩ := process_infile_ok h1
      obtain ⟨n, hn⟩ := process_each_halt rest h
      exact ⟨n + 1, by rw [hn, p1, k1.2.2.2.2]; simp⟩

theorem process_each_completes {env : Env} (hw : ∀ k, (env.pass k).completes) :
    ∀ (files : List Str) (s : State), ∃ s', process_each env files s = .ok s'
  | [], s => ⟨s, rfl⟩
  | f :: rest, s => by
    obtain ⟨s1, h1⟩ := process_infile_completes s.expression s.device f s (hw _)
    obtain ⟨s2, h2⟩ := process_each_completes hw rest s1
    exact ⟨s2, by simp [process_each, h1, Res.bind, h2]⟩

theorem passes_of_finish (env : Env) (s : State) :
    passes_of (finish env s).out = passes_of s.out := by
  simp only [finish, passes_of_append]
  have h1 : passes_of [Action.close_all_fd, Action.phase_shutdown] = [] := rfl
  rw [h1]
  split_ifs <;> simp [passes_of]

/-- The passes of `process_files` are an initial part of the schedule for the
two lists of the state, and all of it when control comes back. -/
theorem process_files_passes (env : Env) (s : State) :
    ∃ l, passes_of (process_files env s).out = passes_of s.out ++ l
      ∧ l <+: pass_schedule s.rfiles s.Rfiles
      ∧ (∀ s', process_files env s = .ok s' →
          l = pass_schedule s.rfiles s.Rfiles
          ∧ s'.demux.output_strip_nonprint = s.demux.output_strip_nonprint) := by
  by_cases hc : s.rfiles.length = 0 ∧ s.Rfiles.length = 0
  · -- live capture
    obtain ⟨hr, hR⟩ := hc
    have hr' : s.rfiles = [] := List.length_eq_zero.mp hr
    have hR' : s.Rfiles = [] := List.length_eq_zero.mp hR
    have hsch : pass_schedule s.rfiles s.Rfiles = [([], true)] := by
      simp [pass_schedule, hr', hR']
    have hdef : process_files env s
        = (process_infile env s.expression s.device []
            ((s.emit [Action.setuid]).set_start_new_connections true)).bind fun s =>
          .ok { s with input_fname := s.device } := by
      simp only [process_files, if_pos (And.intro hr hR)]
    have hp : passes_of ((s.emit [Action.setuid]).set_start_new_connections true).out
        = passes_of s.out := by
      simp [State.set_start_new_connections, State.emit, passes_of_append, passes_of]
    refine ⟨[([], true)], ?_, by rw [hsch], ?_⟩
    · rw [hdef]
      cases hres : process_infile env s.expression s.device []
          ((s.emit [Action.setuid]).set_start_new_connections true) with
      | ok s2 =>
        obtain ⟨_, p, _⟩ := process_infile_ok hres
        show passes_of s2.out = _
        rw [p, hp]; rfl
      | halt hh =>
        show passes_of hh.out = _
        rw [process_infile_halt hres, hp]; rfl
    · intro s' h
      rw [hdef] at h
      refine ⟨hsch.symm, ?_⟩
      obtain ⟨s2, h2, h3⟩ := Res.bind_eq_ok.mp h
      obtain ⟨k, _, _⟩ := process_infile_ok h2
      simp only [Res.ok.injEq] at h3; subst h3
      show s2.demux.output_strip_nonprint = _
      rw [k.2.2.2.2]; rfl
  · have hsch : pass_schedule s.rfiles s.Rfiles
        = s.rfiles.map (fun f => (f, true)) ++ s.Rfiles.map (fun f => (f, false)) := by
      have : ¬ (s.rfiles = [] ∧ s.Rfiles = []) := by
        intro ⟨a, b⟩; apply hc; simp [a, b]
      simp [pass_schedule, this]
    have hdef : process_files env s
        = (process_each env s.rfiles (s.set_start_new_connections true)).bind fun s =>
            process_each env s.Rfiles (s.set_start_new_connections false) := by
      simp only [process_files, if_neg hc]
    rw [hdef]
    cases hres : process_each env s.rfiles (s.set_start_new_connections true) with
    | halt hh =>
      obtain ⟨n, hn⟩ := process_each_halt _ hres
      refine ⟨(s.rfiles.take n).map (fun f => (f, true)), ?_, ?_, ?_⟩
      · show passes_of hh.out = _
        rw [hn]; rfl
      · rw [hsch, List.map_take]
        exact ( List.take_prefix _ _).trans (List.prefix_append _ _)
      · intro s' h; simp [Res.bind] at h
    | ok s2 =>
      obtain ⟨k2, p2⟩ := process_each_ok _ hres
      have hR2 : s2.Rfiles = s.Rfiles := k2.2.1
      have hst2 : s2.demux.output_strip_nonprint = s.demux.output_strip_nonprint := by
        rw [k2.2.2.2.2]; rfl
      have hp2 : passes_of s2.out = passes_of s.out ++ s.rfiles.map (fun f => (f, true)) := p2
      show ∃ l, passes_of
            (process_each env s2.Rfiles (s2.set_start_new_connections false)).out = _ ∧ _ ∧
          ∀ s', process_each env s2.Rfiles (s2.set_start_new_connections false) = .ok s' → _
      cases hres3 : process_each env s2.Rfiles (s2.set_start_new_connections false) with
      | halt hh =>
        obtain ⟨n, hn⟩ := process_each_halt _ hres3
        refine ⟨s.rfiles.map (fun f => (f, true)) ++ (s.Rfiles.take n).map (fun f => (f, false)),
          ?_, ?_, ?_⟩
        · show passes_of hh.out = _
          rw [hn, hR2]
          show passes_of s2.out ++ _ = _
          rw [hp2]; simp [State.set_start_new_connections]
        · rw [hsch, List.map_take]
          exact (List.prefix_append_right_inj _).mpr ( List.take_prefix _ _)
        · intro s' h; simp at h
      | ok s4 =>
        obtain ⟨k4, p4⟩ := process_each_ok _ hres3
        refine ⟨s.rfiles.map (fun f => (f, true)) ++ s.Rfiles.map (fun f => (f, false)),
          ?_, ?_, ?_⟩
        · show passes_of s4.out = _
          rw [p4, hR2]
          show passes_of s2.out ++ _ = _
          rw [hp2]; simp [State.set_start_new_connections]
        · rw [hsch]
        · intro s' h
          simp only [Res.ok.injEq] at h; subst h
          refine ⟨hsch.symm, ?_⟩
          rw [k4.2.2.2.2]; exact hst2

theorem process_files_completes {env : Env} (hw : ∀ k, (env.pass k).completes) (s : State) :
    ∃ s', process_files env s = .ok s' := by
  unfold process_files
  split_ifs
  · obtain ⟨s1, h1⟩ := process_infile_completes s.expression s.device []
      ((s.emit [Action.setuid]).set_start_new_connections true) (hw _)
    exact ⟨_, by rw [h1]; rfl⟩
  · obtain ⟨s1, h1⟩ := process_each_completes hw s.rfiles (s.set_start_new_connections true)
    obtain ⟨s2, h2⟩ := process_each_completes hw s1.Rfiles (s1.set_start_new_connections false)
    exact ⟨s2, by rw [h1]; exact h2⟩

theorem started_single (env : Env) (p : Str × Bool) (k : Nat) : started env [p] k = [p] := by
  simp only [started]
  split_ifs <;> rfl

theorem started_append (env : Env) : ∀ (a b : List (Str × Bool)) (k : Nat),
    started env (a ++ b) k
      = if all_return env a k then a ++ started env b (k + a.length) else started env a k
  | [], b, k => by simp [all_return]
  | p :: a, b, k => by
    have ih := started_append env a b (k + 1)
    have hk : k + 1 + a.length = k + (a.length + 1) := by omega
    rw [hk] at ih
    rw [List.cons_append]
    simp only [started, all_return, List.length_cons]
    cases hr : (env.pass k).returns p.1
    · simp
    · rw [ih]
      simp only [if_true, Bool.true_and]
      split_ifs <;> rfl

theorem started_initial (env : Env) : ∀ (l : List (Str × Bool)) (k : Nat), started env l k <+: l
  | [], _ => by simp [started]
  | p :: l, k => by
    simp only [started]
    split_ifs
    · exact (List.prefix_cons_inj p).mpr (started_initial env l (k + 1))
    · exact ⟨l, rfl⟩

theorem started_all (env : Env) : ∀ (l : List (Str × Bool)) (k : Nat),
    all_return env l k = true → started env l k = l
  | [], _, _ => rfl
  | p :: l, k, h => by
    simp only [all_return, Bool.and_eq_true] at h
    simp only [started, h.1, if_true]
    rw [started_all env l (k + 1) h.2]

/-- The passes of one `for` loop over a file list: every file up to and
including the first whose pass does not come back. -/
theorem process_each_started (env : Env) : ∀ (files : List Str) (s : State),
    passes_of (process_each env files s).out
        = passes_of s.out
            ++ started env (files.map fun f => (f, s.demux.start_new_connections)) s.calls
    ∧ (∀ s', process_each env files s = .ok s' →
        all_return env (files.map fun f => (f, s.demux.start_new_connections)) s.calls = true
        ∧ s'.calls = s.calls + files.length)
    ∧ (∀ hh, process_each env files s = .halt hh →
        all_return env (files.map fun f => (f, s.demux.start_new_connections)) s.calls = false)
  | [], s => by
    simp [process_each, Res.out, started, all_return]
  | f :: rest, s => by
    obtain ⟨hret, hnret⟩ := process_infile_returns env s.expression s.device f s
    simp only [process_each, List.map_cons, started, all_return]
    cases hr : (env.pass s.calls).returns f
    · obtain ⟨hh, h1⟩ := hnret hr
      rw [h1]
      refine ⟨?_, ?_, ?_⟩
      · show passes_of hh.out = _
        rw [process_infile_halt h1]; simp
      · intro s' h; simp [Res.bind] at h
      · intro _ _; simp
    · obtain ⟨s1, h1⟩ := hret hr
      rw [h1]
      obtain ⟨k1, p1, c1⟩ := process_infile_ok h1
      obtain ⟨ih1, ih2, ih3⟩ := process_each_started env rest s1
      have hflag : s1.demux.start_new_connections = s.demux.start_new_connections := by
        rw [k1.2.2.2.2]
      rw [hflag, c1] at ih1 ih2 ih3
      refine ⟨?_, ?_, ?_⟩
      · show passes_of (process_each env rest s1).out = _
        rw [ih1, p1]; simp
      · intro s' h
        obtain ⟨a, b⟩ := ih2 s' h
        exact ⟨by simpa using a, by rw [b, List.length_cons]; omega⟩
      · intro hh h
        simpa using ih3 hh h

/-- The passes of `process_files`: the schedule for the two lists of the
state, up to and including the first pass that does not come back. -/
theorem process_files_started (env : Env) (s : State) :
    passes_of (process_files env s).out
      = passes_of s.out ++ started env (pass_schedule s.rfiles s.Rfiles) s.calls := by
  by_cases hc : s.rfiles.length = 0 ∧ s.Rfiles.length = 0
  · obtain ⟨hr, hR⟩ := hc
    have hr' : s.rfiles = [] := List.length_eq_zero.mp hr
    have hR' : s.Rfiles = [] := List.length_eq_zero.mp hR
    have hsch : pass_schedule s.rfiles s.Rfiles = [([], true)] := by
      simp [pass_schedule, hr', hR']
    rw [hsch, started_single]
    obtain ⟨l, hl, _, _⟩ := process_files_passes env s
    rw [hl]
    -- the live pass is logged whether or not it comes back
    have hdef : process_files env s
        = (process_infile env s.expression s.device []
            ((s.emit [Action.setuid]).set_start_new_connections true)).bind fun s =>
          .ok { s with input_fname := s.device } := by
      simp only [process_files, if_pos (And.intro hr hR)]
    have hp : passes_of ((s.emit [Action.setuid]).set_start_new_connections true).out
        = passes_of s.out := by
      simp [State.set_start_new_connections, State.emit, passes_of_append, passes_of]
    have : passes_of (process_files env s).out = passes_of s.out ++ [([], true)] := by
      rw [hdef]
      cases hres : process_infile env s.expression s.device []
          ((s.emit [Action.setuid]).set_start_new_connections true) with
      | ok s2 =>
        obtain ⟨_, p, _⟩ := process_infile_ok hres
        show passes_of s2.out = _
        rw [p, hp]; rfl
      | halt hh =>
        show passes_of hh.out = _
        rw [process_infile_halt hres, hp]; rfl
    rw [hl] at this
    exact this
  · have hsch : pass_schedule s.rfiles s.Rfiles
        = s.rfiles.map (fun f => (f, true)) ++ s.Rfiles.map (fun f => (f, false)) := by
      have : ¬ (s.rfiles = [] ∧ s.Rfiles = []) := by
        intro ⟨a, b⟩; apply hc; simp [a, b]
      simp [pass_schedule, this]
    have hdef : process_files env s
        = (process_each env s.rfiles (s.set_start_new_connections true)).bind fun s =>
            process_each env s.Rfiles (s.set_start_new_connections false) := by
      simp only [process_files, if_neg hc]
    rw [hdef, hsch, started_append]
    obtain ⟨e1, e2, e3⟩ := process_each_started env s.rfiles
      (s.set_start_new_connections true)
    have hcalls : (s.set_start_new_connections true).calls = s.calls := rfl
    have hflag : (s.set_start_new_connections true).demux.start_new_connections = true := rfl
    have hout : (s.set_start_new_connections true).out = s.out := rfl
    rw [hcalls, hflag, hout] at e1
    rw [hcalls, hflag] at e2 e3
    cases hres : process_each env s.rfiles (s.set_start_new_connections true) with
    | halt hh =>
      rw [hres] at e1
      rw [e3 hh hres]
      simpa [Res.bind] using e1
    | ok s2 =>
      rw [hres] at e1
      obtain ⟨a2, c2⟩ := e2 s2 hres
      obtain ⟨k2, _⟩ := process_each_ok _ hres
      rw [a2]
      simp only [if_true, Res.bind]
      obtain ⟨f1, _, _⟩ := process_each_started env s2.Rfiles
        (s2.set_start_new_connections false)
      have hcalls2 : (s2.set_start_new_connections false).calls = s.calls + s.rfiles.length := c2
      have hflag2 : (s2.set_start_new_connections false).demux.start_new_connections = false := rfl
      have hout2 : (s2.set_start_new_connections false).out = s2.out := rfl
      have hR2 : s2.Rfiles = s.Rfiles := k2.2.1
      rw [hcalls2, hflag2, hout2, hR2] at f1
      rw [hR2, f1]
      have e1' : passes_of s2.out
          = passes_of s.out ++ started env (s.rfiles.map fun f => (f, true)) s.calls := e1
      rw [e1', started_all env _ _ a2]
      simp

/-! ## Runs of `main` -/

theorem main_of_startup_halt {env : Env} {opts : List (Char × Str)} {args : List Str} {hh : Halt}
    (h : startup env opts args = .halt hh) : main env opts args = hh := by
  simp [main, h, Res.bind]

theorem main_of_startup_ok {env : Env} {opts : List (Char × Str)} {args : List Str} {s : State}
    (h : startup env opts args = .ok s) :
    main env opts args
      = (match process_files env s with
         | .ok s' => finish env s'
         | .halt hh => hh) := by
  unfold main
  rw [h]
  cases hp : process_files env s <;> simp [Res.bind, hp]

theorem main_passes {env : Env} {opts : List (Char × Str)} {args : List Str} {s : State}
    (h : startup env opts args = .ok s) :
    passes_of (main env opts args).out = passes_of (process_files env s).out := by
  rw [main_of_startup_ok h]
  cases hres : process_files env s with
  | ok s' => exact passes_of_finish env s'
  | halt hh => rfl

theorem startup_lists {env : Env} {opts : List (Char × Str)} {args : List Str} {s : State}
    (h : startup env opts args = .ok s) :
    s.rfiles = r_files opts ++ (if has_switch 'l' opts then args else [])
    ∧ s.Rfiles = R_files opts
    ∧ s.expression = (if has_switch 'l' opts then [] else build_expression args []) := by
  obtain ⟨s1, h1, _, _, e1, e2, e3, _, _⟩ := startup_ok h
  obtain ⟨a1, a2, a3, _⟩ := getopt_loop_ok opts h1
  have i1 : (init env).rfiles = [] := rfl
  have i2 : (init env).Rfiles = [] := rfl
  have i3 : (init env).trailing_input_list = false := rfl
  rw [i1] at a1; rw [i2] at a2; rw [i3] at a3
  simp only [List.nil_append, Bool.false_or] at a1 a2 a3
  rw [e1, e2, e3, a1, a2, a3]
  exact ⟨rfl, rfl, rfl⟩

theorem pass_schedule_index {rlist Rlist : List Str} (hne : ¬ (rlist = [] ∧ Rlist = []))
    {l : List (Str × Bool)} (hl : l <+: pass_schedule rlist Rlist) (i : Nat) (f : Str) (b : Bool)
    (hi : l[i]? = some (f, b)) :
    (i < rlist.length → b = true ∧ rlist[i]? = some f)
    ∧ (rlist.length ≤ i → b = false ∧ Rlist[i - rlist.length]? = some f) := by
  have hs : (pass_schedule rlist Rlist)[i]? = some (f, b) := by
    obtain ⟨t, ht⟩ := hl
    rw [← ht]
    have hlt : i < l.length := by
      by_contra hc
      rw [List.getElem?_eq_none (by omega)] at hi
      exact absurd hi (by simp)
    rw [List.getElem?_append_left hlt]; exact hi
  simp only [pass_schedule, if_neg hne] at hs
  constructor
  · intro hlt
    rw [List.getElem?_append_left (by simpa using hlt)] at hs
    rw [List.getElem?_map] at hs
    cases hr : rlist[i]? with
    | none => rw [hr] at hs; simp at hs
    | some g =>
      rw [hr] at hs
      simp only [Option.map_some', Option.some.injEq, Prod.mk.injEq] at hs
      exact ⟨hs.2.symm, by rw [hs.1]⟩
  · intro hge
    rw [List.getElem?_append_right (by simpa using hge)] at hs
    rw [List.getElem?_map] at hs
    simp only [List.length_map] at hs
    cases hr : Rlist[i - rlist.length]? with
    | none => rw [hr] at hs; simp at hs
    | some g =>
      rw [hr] at hs
      simp only [Option.map_some', Option.some.injEq, Prod.mk.injEq] at hs
      exact ⟨hs.2.symm, by rw [hs.1]⟩

/-! ## The call counter before the first pass -/

theorem format_case_calls {cc : Char} {s s' : State} (h : format_case cc s = .ok s') :
    s'.calls = s.calls := by
  unfold format_case at h
  split at h
  · split at h
    · simp only [Res.ok.injEq] at h; subst h; rfl
    · simp [State.stop] at h
  all_goals
    simp only [Res.ok.injEq] at h; subst h; rfl

theorem format_loop_calls : ∀ (optarg : Str) {s s' : State}, format_loop optarg s = .ok s' →
    s'.calls = s.calls
  | [], s, s', h => by
    simp only [format_loop, Res.ok.injEq] at h; subst h; rfl
  | cc :: rest, s, s', h => by
    simp only [format_loop] at h
    obtain ⟨s1, h1, h2⟩ := Res.bind_eq_ok.mp h
    rw [format_loop_calls rest h2, format_case_calls h1]

theorem getopt_case_calls {env : Env} {arg : Char} {optarg : Str} {s s' : State}
    (h : getopt_case env arg optarg s = .ok s') : s'.calls = s.calls := by
  unfold getopt_case at h
  split at h
  case h_10 => exact format_loop_calls optarg h
  case h_22 =>
    split at h
    · simp [State.stop] at h
    · simp only [Res.ok.injEq] at h; subst h; rfl
  case h_25 => simp [State.stop] at h
  all_goals
    simp only [Res.ok.injEq] at h; subst h; rfl

theorem getopt_loop_calls {env : Env} : ∀ (opts : List (Char × Str)) {s s' : State},
    getopt_loop env opts s = .ok s' → s'.calls = s.calls
  | [], s, s', h => by
    simp only [getopt_loop, Res.ok.injEq] at h; subst h; rfl
  | (arg, optarg) :: rest, s, s', h => by
    simp only [getopt_loop] at h
    obtain ⟨s1, h1, h2⟩ := Res.bind_eq_ok.mp h
    rw [getopt_loop_calls rest h2, getopt_case_calls h1]

theorem check_options_calls {s s' : State} (h : check_options s = .ok s') :
    s'.calls = s.calls := by
  unfold check_options at h
  split_ifs at h
  · simp [State.stop] at h
  · simp [State.stop] at h
  · simp only [Res.ok.injEq] at h; subst h; rfl

theorem remaining_arguments_calls (args : List Str) (s : State) :
    (remaining_arguments args s).calls = s.calls := by
  unfold remaining_arguments
  split_ifs <;> rfl

theorem open_lock_calls {env : Env} {s s' : State} (h : open_lock env s = .ok s') :
    s'.calls = s.calls := by
  unfold open_lock at h
  split at h
  · split_ifs at h
    · simp only [Res.ok.injEq] at h; subst h; rfl
    · simp [State.stop] at h
  · simp only [Res.ok.injEq] at h; subst h; rfl

theorem check_outdir_calls {env : Env} {s s' : State} (h : check_outdir env s = .ok s') :
    s'.calls = s.calls := by
  unfold check_outdir at h
  split at h
  · split_ifs at h
    · simp [State.stop] at h
    · simp only [Res.ok.injEq] at h; subst h; rfl
  · split_ifs at h
    · simp [State.stop] at h
    · simp only [Res.ok.injEq] at h; subst h; rfl

theorem save_unknown_calls {env : Env} {s s' : State} (h : save_unknown env s = .ok s') :
    s'.calls = s.calls := by
  unfold save_unknown at h
  split_ifs at h
  · simp [State.stop] at h
  · simp [State.stop] at h
  · simp only [Res.ok.injEq] at h; subst h; rfl
  · simp only [Res.ok.injEq] at h; subst h; rfl

/-- No call of `process_infile` has been made when the passes begin. -/
theorem startup_calls {env : Env} {opts : List (Char × Str)} {args : List Str} {s : State}
    (h : startup env opts args = .ok s) : s.calls = 0 := by
  by_cases hsz : env.sizeof_ip4 ≠ 20 ∨ env.sizeof_tcphdr ≠ 20
  · simp [startup, hsz] at h
  · simp only [startup, if_neg hsz] at h
    obtain ⟨s1, h1, h⟩ := Res.bind_eq_ok.mp h
    obtain ⟨s2, h2, h⟩ := Res.bind_eq_ok.mp h
    obtain ⟨s3, h3, h⟩ := Res.bind_eq_ok.mp h
    obtain ⟨s4, h4, h⟩ := Res.bind_eq_ok.mp h
    obtain ⟨s5, h5, h⟩ := Res.bind_eq_ok.mp h
    simp only [Res.ok.injEq] at h
    rw [← h]
    show s5.calls = 0
    rw [save_unknown_calls h5]
    show s4.calls = 0
    rw [check_outdir_calls h4]
    show s3.calls = 0
    rw [open_lock_calls h3, remaining_arguments_calls, check_options_calls h2,
      getopt_loop_calls opts h1]
    rfl

/-! ## C1: the pass sequence -/

/-- C1. Once `main` has got through its option handling, its file lists are the
`-r` arguments in command-line order followed, under `-l`, by the remaining
arguments, and the `-R` arguments in command-line order, and the passes it runs
are exactly the passes of the schedule for these lists (one live pass with
admission enabled if both lists are empty; else the `-r` files in order with
admission enabled, then the `-R` files in order with admission disabled), taken
up to and including the first pass that does not come back to `main`.  So with
both lists empty there is exactly one pass, live and with admission enabled,
however the capture ends; the passes run are always an initial part of the
schedule; they are the whole schedule when every pass comes back; and when
there are files, the pass at a position `i` below the number of `-r` files is
the `i`-th `-r` file with admission enabled and every later pass is an `-R`
file with admission disabled. -/
theorem pass_sequence_follows_schedule (env : Env) (opts : List (Char × Str)) (args : List Str)
    (s : State) (h : startup env opts args = .ok s) :
    s.rfiles = r_files opts ++ (if has_switch 'l' opts then args else [])
    ∧ s.Rfiles = R_files opts
    ∧ passes_of (main env opts args).out = started env (pass_schedule s.rfiles s.Rfiles) 0
    ∧ (s.rfiles = [] ∧ s.Rfiles = [] → passes_of (main env opts args).out = [([], true)])
    ∧ passes_of (main env opts args).out <+: pass_schedule s.rfiles s.Rfiles
    ∧ (all_return env (pass_schedule s.rfiles s.Rfiles) 0 = true →
        passes_of (main env opts args).out = pass_schedule s.rfiles s.Rfiles)
    ∧ ((∀ k, (env.pass k).completes) →
        passes_of (main env opts args).out = pass_schedule s.rfiles s.Rfiles
        ∧ (main env opts args).exit = Exit.code 0)
    ∧ (¬ (s.rfiles = [] ∧ s.Rfiles = []) →
        ∀ i f b, (passes_of (main env opts args).out)[i]? = some (f, b) →
          (i < s.rfiles.length → b = true ∧ s.rfiles[i]? = some f)
          ∧ (s.rfiles.length ≤ i → b = false ∧ s.Rfiles[i - s.rfiles.length]? = some f)) := by
  obtain ⟨hr, hR, _⟩ := startup_lists h
  obtain ⟨_, _, _, _, _, _, _, _, hp0⟩ := startup_ok h
  have hc0 := startup_calls h
  have hexact : passes_of (main env opts args).out
      = started env (pass_schedule s.rfiles s.Rfiles) 0 := by
    rw [main_passes h, process_files_started, hp0, hc0, List.nil_append]
  have hinit : passes_of (main env opts args).out <+: pass_schedule s.rfiles s.Rfiles := by
    rw [hexact]; exact started_initial env _ 0
  refine ⟨hr, hR, hexact, ?_, hinit, ?_, ?_, ?_⟩
  · intro ⟨h1, h2⟩
    rw [hexact, h1, h2]
    exact started_single env _ 0
  · intro hall
    rw [hexact, started_all env _ 0 hall]
  · intro hw
    obtain ⟨l, hl, _, hall⟩ := process_files_passes env s
    rw [hp0, List.nil_append, ← main_passes h] at hl
    obtain ⟨s', hs'⟩ := process_files_completes hw s
    refine ⟨by rw [hl]; exact (hall s' hs').1, ?_⟩
    rw [main_of_startup_ok h, hs']
    rfl
  · intro hne i f b hi
    exact pass_schedule_index hne hinit i f b hi

theorem pass_sequence_follows_schedule_witness :
    passes_of (main env_sigint [] []).out = [([], true)]
    ∧ passes_of (main env0 sample_opts []).out
        = [("a".toList, true), ("c".toList, true), ("b".toList, false)] :=
  ⟨(pass_sequence_follows_schedule env_sigint [] []
      ((startup env_sigint [] []).state_or (init env_sigint)) (by decide)).2.2.2.1
      ⟨by decide, by decide⟩,
   ((pass_sequence_follows_schedule env0 sample_opts []
      ((startup env0 sample_opts []).state_or (init env0)) (by decide)).2.2.2.2.2.2.1
    (fun _ => ⟨rfl, rfl, rfl, rfl, rfl⟩)).1⟩

/-! ## C2: `replace` -/

theorem replace_fuel_spec (str from_ to_ : Str) (hne : from_ ≠ []) (hlen : str.length < 2 ^ 32)
    (ps : List Str) (hg : greedy_pieces from_ ps) (hs : List.intercalate from_ ps = str)
    (fuel : Nat) (hf : str.length < fuel) :
    replace_fuel fuel str from_ to_ = some (List.intercalate to_ ps) := by
  have hl : from_.length ≠ 0 := by
    intro h; exact hne (List.length_eq_zero.mp h)
  simp only [replace_fuel, if_neg hl]
  rw [replace_loop_eq_scan str from_ to_ hlen fuel 0 [] false (Nat.zero_le _)]
  rw [List.drop_zero, scan_spec from_ to_ hne fuel str [] false ps hg hs hf]
  simp only [List.nil_append, Bool.false_or]
  match ps, hg, hs with
  | [p], _, hs =>
    rw [intercalate_single] at hs ⊢
    simp [hs]
  | p :: q :: ps, _, _ => simp

/-- Below the range of the `unsigned int` index, `replace` does what C2 says:
for every string `str` shorter than `2 ^ 32` characters, every non-empty
`from_` and every `to_`, `str` has a greedy leftmost decomposition
`p0 ++ from_ ++ p1 ++ ... ++ from_ ++ pk`, and for each such decomposition
`replace` returns, as soon as it is given more loop iterations than `str` has
characters, the string `p0 ++ to_ ++ p1 ++ ... ++ to_ ++ pk`; the text of `to_`
is not scanned again, whatever it contains. -/
theorem replace_greedy_substitution (str from_ to_ : Str) (hne : from_ ≠ [])
    (hlen : str.length < 2 ^ 32) :
    (∃ ps, greedy_pieces from_ ps ∧ List.intercalate from_ ps = str)
    ∧ ∀ ps, greedy_pieces from_ ps → List.intercalate from_ ps = str →
        (∀ fuel, str.length < fuel →
          replace_fuel fuel str from_ to_ = some (List.intercalate to_ ps))
        ∧ replace str from_ to_ = some (List.intercalate to_ ps) := by
  refine ⟨greedy_pieces_exists from_ hne str.length str rfl, ?_⟩
  intro ps hg hs
  exact ⟨fun fuel hf => replace_fuel_spec str from_ to_ hne hlen ps hg hs fuel hf,
    replace_fuel_spec str from_ to_ hne hlen ps hg hs _ (Nat.lt_succ_self _)⟩

theorem replace_greedy_substitution_example :
    replace "aaa%c%c-a".toList "a".toList "aa".toList
      = some (List.intercalate "aa".toList [[], [], [], "%c%c-".toList, []]) :=
  ((replace_greedy_substitution "aaa%c%c-a".toList "a".toList "aa".toList (by decide)
      (by decide)).2 [[], [], [], "%c%c-".toList, []] (by decide) (by decide)).2

theorem replace_fuel_none_of_large (str from_ to_ : Str) (hne : from_ ≠ [])
    (h : 2 ^ 32 ≤ str.length) (fuel : Nat) : replace_fuel fuel str from_ to_ = none := by
  have hl : from_.length ≠ 0 := by
    intro h0; exact hne (List.length_eq_zero.mp h0)
  simp only [replace_fuel, if_neg hl]
  rw [replace_loop_none_of_large str from_ to_ h fuel 0 [] false (by norm_num)]

theorem not_occurs_in_replicate (n j : Nat) :
    ¬ occurs_at ['b'] (List.replicate n 'a') j := by
  intro h
  unfold occurs_at at h
  have hb : 'b' ∈ ((List.replicate n 'a').drop j).take ['b'].length := by
    rw [h]; exact List.mem_singleton.mpr rfl
  have hb' : 'b' ∈ List.replicate n 'a' :=
    List.mem_of_mem_drop (List.mem_of_mem_take hb)
  have := List.eq_of_mem_replicate hb'
  exact absurd this (by decide)

/-- C2, the failing call: on the string of `2 ^ 32` characters `a`, with
`from_ = "b"` and `to_ = "c"`, the greedy decomposition is the string itself
(there is nothing to replace, so C2 promises the string back unchanged), but
the scan never ends: whatever the number of loop iterations allowed, `replace`
has not returned, because the `unsigned int` index wraps round to 0 before it
can reach `str.size()`. -/
theorem replace_does_not_return_on_long_string :
    (List.replicate (2 ^ 32) 'a').length = 2 ^ 32
    ∧ greedy_pieces ['b'] [List.replicate (2 ^ 32) 'a']
    ∧ List.intercalate ['b'] [List.replicate (2 ^ 32) 'a'] = List.replicate (2 ^ 32) 'a'
    ∧ ∀ fuel, replace_fuel fuel (List.replicate (2 ^ 32) 'a') ['b'] ['c'] = none := by
  refine ⟨List.length_replicate _ _, ?_, intercalate_single _ _, ?_⟩
  · show ∀ j, j < (List.replicate (2 ^ 32) 'a').length → ¬ occurs_at ['b'] _ j
    intro j _
    exact not_occurs_in_replicate _ j
  · intro fuel
    exact replace_fuel_none_of_large _ _ _ (by decide) (by rw [List.length_replicate]) fuel

/-! ## C3: the binning prefixes of `-F` -/

/-- C3. The format characters `k`, `m` and `g` of `-F` put `%K/`,
`%M000-%M999/%M%K/` and `%G000000-%G999999/%G%M000-%G%M999/%G%M%K/` in front of
the template in force, which stays intact behind them and nothing else in the
state changes; the three prefixes contain 1, 2 and 3 separators `/`. -/
theorem binning_prefixes (env : Env) (s : State) :
    format_case 'k' s = .ok { s with filename_template := "%K/".toList ++ s.filename_template }
    ∧ format_case 'm' s
        = .ok { s with filename_template := "%M000-%M999/%M%K/".toList ++ s.filename_template }
    ∧ format_case 'g' s
        = .ok { s with
                filename_template :=
                  "%G000000-%G999999/%G%M000-%G%M999/%G%M%K/".toList ++ s.filename_template }
    ∧ getopt_case env 'F' "k".toList s = format_case 'k' s
    ∧ getopt_case env 'F' "m".toList s = format_case 'm' s
    ∧ getopt_case env 'F' "g".toList s = format_case 'g' s
    ∧ "%K/".toList.count '/' = 1
    ∧ "%M000-%M999/%M%K/".toList.count '/' = 2
    ∧ "%G000000-%G999999/%G%M000-%G%M999/%G%M%K/".toList.count '/' = 3 := by
  refine ⟨rfl, rfl, rfl, ?_, ?_, ?_, by decide, by decide, by decide⟩ <;>
    simp [getopt_case, format_loop, format_case, Res.bind]

/-! ## C4: `-Fc` -/

theorem occurs_at_of_contained {from_ s : Str} (hne : from_ ≠ []) (h : from_ <:+: s) :
    ∃ j, j < s.length ∧ occurs_at from_ s j := by
  obtain ⟨a, b, hab⟩ := h
  refine ⟨a.length, ?_, ?_⟩
  · rw [← hab]
    have : 0 < from_.length := List.length_pos.mpr hne
    simp; omega
  · unfold occurs_at
    rw [← hab, List.append_assoc, List.drop_left]
    simp

theorem intercalate_contains_sep (sep p q : Str) (ps : List Str) :
    sep <:+: List.intercalate sep (p :: q :: ps) := by
  rw [intercalate_two]
  exact ⟨p, List.intercalate sep (q :: ps), by simp⟩

/-- Below the range of the index of `replace`, `-Fc` is the textual rewrite of
the `%c` tokens: if the template in force is `p0 ++ "%c" ++ ... ++ "%c" ++ pk`
(greedy decomposition), the new template is `p0 ++ "%C" ++ ... ++ "%C" ++ pk`
and nothing else in the state changes; so a template that contains `%c` ends
up containing `%C`, and one that does not is left as it is. -/
theorem Fc_rewrites_counter_token (env : Env) (s : State)
    (hlen : s.filename_template.length < 2 ^ 32) (ps : List Str)
    (hg : greedy_pieces "%c".toList ps)
    (hs : List.intercalate "%c".toList ps = s.filename_template) :
    replace s.filename_template "%c".toList "%C".toList
        = some (List.intercalate "%C".toList ps)
    ∧ format_case 'c' s = .ok { s with filename_template := List.intercalate "%C".toList ps }
    ∧ getopt_case env 'F' "c".toList s
        = .ok { s with filename_template := List.intercalate "%C".toList ps }
    ∧ ("%c".toList <:+: s.filename_template
        → "%C".toList <:+: List.intercalate "%C".toList ps)
    ∧ (¬ "%c".toList <:+: s.filename_template
        → List.intercalate "%C".toList ps = s.filename_template) := by
  have hne : "%c".toList ≠ [] := by decide
  have hrep : replace s.filename_template "%c".toList "%C".toList
      = some (List.intercalate "%C".toList ps) :=
    replace_fuel_spec s.filename_template "%c".toList "%C".toList hne hlen ps hg hs
      _ (Nat.lt_succ_self _)
  have hfc : format_case 'c' s
      = .ok { s with filename_template := List.intercalate "%C".toList ps } := by
    simp only [format_case, hrep]
  refine ⟨hrep, hfc, ?_, ?_, ?_⟩
  · simp only [getopt_case, format_loop, Res.bind, hfc]
  · intro hin
    match ps, hg, hs with
    | [p], hg, hs =>
      rw [intercalate_single] at hs
      subst hs
      obtain ⟨j, hj, hocc⟩ := occurs_at_of_contained hne hin
      exact absurd hocc (hg j hj)
    | p :: q :: ps, _, _ => exact intercalate_contains_sep _ _ _ _
  · intro hnin
    match ps, hg, hs with
    | [p], _, hs =>
      rw [intercalate_single] at hs ⊢
      exact hs
    | p :: q :: ps, _, hs =>
      exact absurd (hs ▸ intercalate_contains_sep _ _ _ _) hnin

theorem Fc_rewrites_counter_token_example :
    format_case 'c' { init env0 with filename_template := "flow%c.%c".toList }
      = .ok { init env0 with filename_template := "flow%C.%C".toList } :=
  (Fc_rewrites_counter_token env0 { init env0 with filename_template := "flow%c.%c".toList }
    (by decide) ["flow".toList, ".".toList, []] (by decide) (by decide)).2.1

/-- C4, the failing run: after `-T flow -Fc` the template in force when `c` was
processed was `flow`; the resulting template is still `flow` and does not
contain `%C`, so the file names carry no connection counter, although the
usage text promises it for all file names.  The sibling format characters add
their token whatever the template: after `-T flow -Ft` and `-T flow -FT` the
templates are `%tTflow` and `%Tflow`. -/
theorem Fc_adds_no_counter_to_custom_template :
    ((getopt_loop env0 [('T', "flow".toList), ('F', "c".toList)] (init env0)).state_or
        (init env0)).filename_template = "flow".toList
    ∧ ¬ "%C".toList <:+:
        ((getopt_loop env0 [('T', "flow".toList), ('F', "c".toList)] (init env0)).state_or
          (init env0)).filename_template
    ∧ ((getopt_loop env0 [('T', "flow".toList), ('F', "t".toList)] (init env0)).state_or
        (init env0)).filename_template = "%tTflow".toList
    ∧ ((getopt_loop env0 [('T', "flow".toList), ('F', "T".toList)] (init env0)).state_or
        (init env0)).filename_template = "%Tflow".toList := by
  decide

/-! ## C5: `-B` -/

/-- C5. For every command line that contains `-B`, wherever `-B` stands among
the other options, `demux.opt.output_strip_nonprint` is false once `main` has
finished its option handling, and it is still false after the input passes. -/
theorem force_binary_output_wins (env : Env) (opts : List (Char × Str)) (args : List Str)
    (s : State) (hB : has_switch 'B' opts = true) (h : startup env opts args = .ok s) :
    s.demux.output_strip_nonprint = false
    ∧ ∀ s', process_files env s = .ok s' → s'.demux.output_strip_nonprint = false := by
  obtain ⟨s1, h1, _, _, _, _, _, e4, _⟩ := startup_ok h
  obtain ⟨_, _, _, a4, _⟩ := getopt_loop_ok opts h1
  have hfb : s1.force_binary_output = true := by rw [a4, hB]; simp
  have hs : s.demux.output_strip_nonprint = false := by rw [e4, hfb]; rfl
  refine ⟨hs, fun s' h' => ?_⟩
  obtain ⟨l, _, _, hall⟩ := process_files_passes env s
  rw [(hall s' h').2, hs]

theorem force_binary_output_wins_witness :
    ((startup env0 [('B', []), ('c', []), ('s', [])] ["port".toList, "80".toList]).state_or
        (init env0)).demux.output_strip_nonprint = false :=
  (force_binary_output_wins env0 [('B', []), ('c', []), ('s', [])] ["port".toList, "80".toList]
    _ (by decide) (by decide)).1

/-! ## C6 and C7: shutdown -/

/-- C6, the failing run: with `-r a.pcap` and an interrupt (SIGINT) during the
pass, the report has been created and the run ends with `phase_shutdown` and
`exit(0)` from the handler, without `close_all_fd`, `remove_all_flows` or the
closing of the report; the same command line read to the end of its input
performs all three before `exit(0)`. -/
theorem signal_exit_skips_finalization :
    (main env_sigint [('r', "a.pcap".toList)] []).exit = Exit.code 0
    ∧ Action.report_create "./report.xml".toList ∈ (main env_sigint [('r', "a.pcap".toList)] []).out
    ∧ (main env_sigint [('r', "a.pcap".toList)] []).out.getLast? = some Action.phase_shutdown
    ∧ Action.close_all_fd ∉ (main env_sigint [('r', "a.pcap".toList)] []).out
    ∧ Action.remove_all_flows ∉ (main env_sigint [('r', "a.pcap".toList)] []).out
    ∧ Action.report_close ∉ (main env_sigint [('r', "a.pcap".toList)] []).out
    ∧ (main env0 [('r', "a.pcap".toList)] []).exit = Exit.code 0
    ∧ Action.close_all_fd ∈ (main env0 [('r', "a.pcap".toList)] []).out
    ∧ Action.remove_all_flows ∈ (main env0 [('r', "a.pcap".toList)] []).out
    ∧ Action.report_close ∈ (main env0 [('r', "a.pcap".toList)] []).out := by
  decide

/-- C7, as stated, fails: the handler itself runs the plugin shutdown phase. -/
theorem handler_does_shutdown_work_counterexample :
    Action.phase_shutdown ∈ (terminate Signal.SIGINT (init env0)).out := by
  decide

/-- C7, amended. `process_infile` installs `terminate` as the handler of
SIGTERM, SIGINT and (where defined) SIGHUP before it calls `pcap_loop`; when
one of these signals arrives during `pcap_loop`, the handler itself runs the
plugin shutdown phase (`phase_shutdown`) and then ends the process with
`exit(0)`: control does not return to `main`. -/
theorem handler_runs_shutdown_phase_and_exits (env : Env) (expression device infile : Str)
    (s : State) (sig : Signal) (hsig : sig ∈ signals env)
    (hw : (env.pass s.calls).reaches_loop)
    (hl : (env.pass s.calls).loop = LoopResult.signalled sig) :
    ∃ s', process_infile env expression device infile s = .halt (terminate sig s')
      ∧ (∀ sg, sg ∈ signals env → Action.portable_signal sg ∈ s'.out)
      ∧ s'.out.getLast? = some Action.pcap_loop
      ∧ (terminate sig s').out = s'.out ++ [Action.phase_shutdown]
      ∧ (terminate sig s').exit = Exit.code 0 := by
  obtain ⟨w1, w2, w3, w4⟩ := hw
  obtain ⟨s1, h1⟩ : ∃ s1, open_capture (env.pass s.calls) device infile
      { s with
        out := s.out ++ [Action.process_infile expression device infile
                          s.demux.start_new_connections]
        calls := s.calls + 1 } = .ok s1 := by
    exact (open_capture_opens _ device infile _).1 (by simp [w1, w2])
  have h2 : install env (env.pass s.calls) expression s1
      = .ok { s1 with
              out := s1.out ++ [Action.pcap_setfilter expression]
                       ++ (signals env).map Action.portable_signal
              handlers := signals env ++ s1.handlers } := by
    simp [install, w3, w4]
  generalize hs2 : ({ s1 with
              out := s1.out ++ [Action.pcap_setfilter expression]
                       ++ (signals env).map Action.portable_signal
              handlers := signals env ++ s1.handlers } : State) = s2 at h2
  have hmem : sig ∈ s2.handlers := by
    rw [← hs2]; exact List.mem_append_left _ hsig
  have h3 : capture (env.pass s.calls) s2 = .halt (terminate sig (s2.emit [Action.pcap_loop])) := by
    simp only [capture, hl, if_pos hmem]
  refine ⟨s2.emit [Action.pcap_loop], ?_, ?_, ?_, rfl, rfl⟩
  · simp only [process_infile, h1, h2, h3, Res.bind]
  · intro sg hsg
    rw [← hs2]
    simp only [State.emit, List.mem_append, List.mem_map]
    exact Or.inl (Or.inr ⟨sg, hsg, rfl⟩)
  · simp [State.emit]

theorem handler_runs_shutdown_phase_and_exits_witness :
    Signal.SIGINT ∈ signals env_sigint
    ∧ (process_infile env_sigint [] "eth0".toList "a.pcap".toList (init env_sigint)).out.getLast?
        = some Action.phase_shutdown :=
  ⟨by decide, by
    obtain ⟨s', h, _, _, h4, _⟩ :=
      handler_runs_shutdown_phase_and_exits env_sigint [] "eth0".toList "a.pcap".toList
        (init env_sigint) Signal.SIGINT (by decide) ⟨rfl, rfl, rfl, rfl⟩ rfl
    rw [h]
    simp [Res.out, h4]⟩

/-! ## C8: errors in the arguments -/

/-- C8, as stated, fails: with `-A x -h` an option sets `need_usage`, yet
`main` exits with status 0. -/
theorem need_usage_exit_status_counterexample :
    [('A', "H".toList), ('h', [])].any sets_need_usage = true
    ∧ (main env0 [('A', "H".toList), ('h', [])] []).exit = Exit.code 0 := by
  decide

/-- C8, amended. For every command line with an option that sets `need_usage`
(the deprecated `-A`, an invalid `-F` format character, a switch without a
case): `main` processes no input; if no help option (`-H`, `-h`, `?`) is given
as well, the run does not end with status 0: it exits with status 1, the only
other ending being a `-Fc` scan that never returns; and when the option loop
runs to its end (no `-V`, no malformed `-S`), no help option was given and
post-processing is not combined with `-FX`, `main` prints the usage text and
exits with status 1. -/
theorem need_usage_stops_before_input (env : Env) (opts : List (Char × Str)) (args : List Str)
    (h : opts.any sets_need_usage = true) :
    passes_of (main env opts args).out = []
    ∧ (opts.any is_help = false →
        (main env opts args).exit = Exit.code 1 ∨ (main env opts args).exit = Exit.no_return)
    ∧ (∀ s, env.sizeof_ip4 = 20 → env.sizeof_tcphdr = 20 →
        getopt_loop env opts (init env) = .ok s → opts.any is_help = false →
        (s.demux.post_processing && !s.demux.store_output) = false →
        Action.usage_page 1 ∈ (main env opts args).out
        ∧ (main env opts args).exit = Exit.code 1) := by
  by_cases hsz : env.sizeof_ip4 ≠ 20 ∨ env.sizeof_tcphdr ≠ 20
  · have hst : startup env opts args
        = .halt ⟨[Action.diag Diag.compile_error], Exit.code 1⟩ := by
      simp only [startup, if_pos hsz]
    rw [main_of_startup_halt hst]
    refine ⟨rfl, fun _ => Or.inl rfl, ?_⟩
    intro s h1 h2
    rw [h1, h2] at hsz
    simp at hsz
  · cases hloop : getopt_loop env opts (init env) with
    | halt hh =>
      have hst : startup env opts args = .halt hh := by
        simp only [startup, if_neg hsz, hloop, Res.bind]
      rw [main_of_startup_halt hst]
      obtain ⟨he, hp⟩ := getopt_loop_halt opts hloop
      refine ⟨by rw [hp]; rfl, fun _ => he, ?_⟩
      intro s _ _ hs
      simp at hs
    | ok s1 =>
      obtain ⟨_, _, _, _, a5, a6, a7, a8⟩ := getopt_loop_ok opts hloop
      have hnu : s1.need_usage = true := by rw [a7, h]; simp
      obtain ⟨hh, hchk⟩ := check_options_need_usage hnu
      have hst : startup env opts args = .halt hh := by
        simp only [startup, if_neg hsz, hloop, Res.bind, hchk]
      rw [main_of_startup_halt hst]
      obtain ⟨b1, b2, b3⟩ := check_options_halt hchk
      have hdh : opts.any is_help = false → s1.didhelp = false := by
        intro hhelp; rw [a5, hhelp]; rfl
      refine ⟨by rw [b1, a8]; rfl, fun hhelp => Or.inl (b2 (hdh hhelp)), ?_⟩
      intro s _ _ hs hhelp hpp
      simp only [Res.ok.injEq] at hs; subst hs
      have hd := hdh hhelp
      have hu : s1.usage_count = 0 := by
        rcases a6 (Or.inl rfl) with hu | hu
        · exact hu
        · rw [hd] at hu; exact absurd hu (by simp)
      exact ⟨b3 hd hpp hu, b2 hd⟩

theorem need_usage_stops_before_input_witness :
    Action.usage_page 1 ∈ (main env0 [('c', []), ('F', "kz".toList)] ["port".toList]).out
    ∧ (main env0 [('c', []), ('F', "kz".toList)] ["port".toList]).exit = Exit.code 1 :=
  (need_usage_stops_before_input env0 [('c', []), ('F', "kz".toList)] ["port".toList]
    (by decide)).2.2
    ((getopt_loop env0 [('c', []), ('F', "kz".toList)] (init env0)).state_or (init env0))
    rfl rfl (by decide) (by decide) (by decide)

/-! ## C9: the remaining arguments -/

theorem build_expression_nonempty : ∀ (args : List Str) (acc : Str), acc ≠ [] →
    build_expression args acc = List.intercalate " ".toList (acc :: args)
  | [], acc, _ => by simp [build_expression, List.intercalate]
  | a :: rest, acc, hacc => by
    have hlen : acc.length > 0 := List.length_pos.mpr hacc
    simp only [build_expression, if_pos hlen]
    rw [build_expression_nonempty rest _ (by simp [hacc])]
    cases rest with
    | nil => simp [List.intercalate]
    | cons b r => simp [List.intercalate]

theorem build_expression_spec : ∀ (args : List Str),
    build_expression args [] = List.intercalate " ".toList (args.dropWhile fun a => a.isEmpty)
  | [] => by simp [build_expression, List.intercalate]
  | a :: rest => by
    simp only [build_expression, List.length_nil, gt_iff_lt, lt_self_iff_false, if_false,
      List.nil_append]
    by_cases ha : a = []
    · subst ha
      rw [build_expression_spec rest]
      simp [List.dropWhile]
    · rw [build_expression_nonempty rest a ha]
      have : (a.isEmpty) = false := by
        cases a with
        | nil => exact absurd rfl ha
        | cons c t => rfl
      simp [List.dropWhile, this]

/-- C9, as stated, fails: for the remaining arguments `""` and `"a"` (no `-l`)
the expression is `"a"`, which is not the two arguments joined by one space
(`" a"`). -/
theorem expression_join_counterexample :
    ((startup env0 [] [[], "a".toList]).state_or (init env0)).expression = "a".toList
    ∧ ((startup env0 [] [[], "a".toList]).state_or (init env0)).expression
        ≠ List.intercalate " ".toList [[], "a".toList] := by
  decide

/-- C9, amended. Without `-l`, the filter expression is the remaining
arguments, minus any empty arguments at the front, joined in order by exactly
one space between consecutive arguments, and the `-r` list is unchanged; with
`-l`, the expression is empty and the remaining arguments are appended, in
order, after the `-r` files. -/
theorem remaining_arguments_split (env : Env) (opts : List (Char × Str)) (args : List Str)
    (s : State) (h : startup env opts args = .ok s) :
    (has_switch 'l' opts = false →
      s.expression = List.intercalate " ".toList (args.dropWhile fun a => a.isEmpty)
      ∧ s.rfiles = r_files opts)
    ∧ (has_switch 'l' opts = true → s.expression = [] ∧ s.rfiles = r_files opts ++ args) := by
  obtain ⟨hr, _, he⟩ := startup_lists h
  constructor
  · intro hl
    rw [hl] at hr he
    simp only [Bool.false_eq_true, if_false, List.append_nil] at hr he
    exact ⟨by rw [he, build_expression_spec], hr⟩
  · intro hl
    rw [hl] at hr he
    simp only [if_true] at hr he
    exact ⟨he, hr⟩

theorem remaining_arguments_split_witness :
    ((startup env0 [('r', "a".toList)] ["tcp".toList, "port".toList, "80".toList]).state_or
        (init env0)).expression = "tcp port 80".toList
    ∧ ((startup env0 [('l', []), ('r', "a".toList)] ["b".toList, "c".toList]).state_or
        (init env0)).rfiles = ["a".toList, "b".toList, "c".toList] :=
  ⟨((remaining_arguments_split env0 [('r', "a".toList)]
      ["tcp".toList, "port".toList, "80".toList] _ (by decide)).1 (by decide)).1,
   ((remaining_arguments_split env0 [('l', []), ('r', "a".toList)]
      ["b".toList, "c".toList] _ (by decide)).2 (by decide)).2⟩

end Tcpflow
